import Mathlib

/-!
Shallow embedding of the anki_vocab pipeline (repository sassmilic/ankigen-bcs2).

The embedding follows src/anki_vocab/pipeline.py, src/anki_vocab/utils.py,
src/anki_vocab/models.py, src/anki_vocab/openai_client.py.

Modelling conventions:
* External collaborators (chat completion, image generation, stock photo
  search, image download) are oracles returning Except values; an error value
  models a raised exception.
* The SQLite table words(canonical_form TEXT PRIMARY KEY, stage_status TEXT)
  is modelled as an association list over Option String keys.  SQLite accepts
  NULL in a non-INTEGER primary key column, NULL compares unequal to
  everything under the SQL equality used by SELECT and by the implicit
  conflict check of INSERT OR REPLACE; both facts are reflected by sqlEq.
* Python object mutation of entries shared between the full batch list and
  filtered sublists (complex_entries, words_to_process) is modelled by
  tagging each entry of the full list with its selection flag and updating
  in place, which preserves the aliasing semantics of the source.
* The asyncio schedule is serialized: asyncio.gather over batches and over
  the Stage 4 tasks is modelled as the in-order sequential schedule.  The
  Stage 5 loop is already sequential in the source.
* Every external call that the source performs is recorded as an event, in
  program order, also when the call itself fails; the trace is returned next
  to the Except result so that calls made before an abort stay observable.
* The uuid prefix of generate_image_filename and the directory part of file
  paths are abstracted to deterministic strings; no claim depends on them.
-/

/-- Completion flags of one canonical word (models.StageStatus).  The source
never assigns completed_at inside the pipeline; it is kept for fidelity. -/
structure StageStatus where
  metadata : Bool := false
  definition : Bool := false
  examples : Bool := false
  image_prompt : Bool := false
  image_generation : Bool := false
  completed_at : Option Nat := none
  deriving Repr, DecidableEq

/-- One word record accumulated through the run (models.WordEntry). -/
structure WordEntry where
  original : String
  canonical_form : Option String := none
  part_of_speech : Option String := none
  word_type : Option String := none
  translation : Option String := none
  definition : Option String := none
  example_sentences : Option (List String) := none
  image_prompt : Option String := none
  image_files : Option (List String) := none
  deriving Repr, DecidableEq

/-- The words table of data/history.sqlite: rows of (canonical_form, status).
The key is Option String because pipeline.py passes entry.canonical_form,
which can be None, straight into the utils functions. -/
abbrev Db := List (Option String × StageStatus)

/-- SQL equality on the TEXT primary key column: NULL compares unequal to
everything, including NULL.  This drives both the SELECT of get_word_status
and the conflict check of INSERT OR REPLACE in update_word_status. -/
def sqlEq : Option String → Option String → Bool
  | some a, some b => a == b
  | _, _ => false

/-- utils.get_word_status: SELECT stage_status FROM words WHERE
canonical_form = ?, returning the parsed status of the first row or None. -/
def get_word_status (db : Db) (canonical_form : Option String) : Option StageStatus :=
  (db.find? (fun r => sqlEq r.1 canonical_form)).map (fun r => r.2)

/-- utils.update_word_status: INSERT OR REPLACE INTO words: rows conflicting
under SQL equality are replaced, then the new row is inserted. -/
def update_word_status (db : Db) (canonical_form : Option String) (s : StageStatus) : Db :=
  (canonical_form, s) :: db.filter (fun r => !sqlEq r.1 canonical_form)

/-- One item of the Stage 1 bulk JSON response; every field is read with
item.get, hence optional. -/
structure MetaItem where
  word : Option String := none
  canonical_form : Option String := none
  part_of_speech : Option String := none
  word_type : Option String := none
  translation : Option String := none
  deriving Repr, DecidableEq

/-- One item of the Stage 2 bulk JSON response. -/
structure DefItem where
  word : Option String := none
  definition : Option String := none
  deriving Repr, DecidableEq

/-- One item of the Stage 3 bulk JSON response. -/
structure ExItem where
  word : Option String := none
  example_sentences : Option (List String) := none
  deriving Repr, DecidableEq

/-- Observable external calls and pauses, in program order. -/
inductive Ev where
  | chatBulk (stage : Nat) (words : List String)
  | chatPrompt (word : String)
  | pexelsSearch (word : String) (query : String)
  | downloadImg (word : String) (url : String)
  | genImage (word : String) (prompt : String)
  | sleep (secs : Nat)
  deriving Repr, DecidableEq

/-- Errors raised by collaborators; the message is the only payload used. -/
abbrev Err := String

deriving instance DecidableEq for Except

/-- The external collaborators, as deterministic oracles.  metaResp, defResp
and exResp take the requested word list (the formatted prompt is a function
of it); promptResp takes the whole entry because the Stage 4 prompt embeds
word, part of speech and definitions; pexelsResp takes the search query;
downloadResp takes the url; genImageResp takes the image prompt. -/
structure Oracles where
  metaResp : List String → Except Err (List MetaItem)
  defResp : List String → Except Err (List DefItem)
  exResp : List String → Except Err (List ExItem)
  promptResp : WordEntry → Except Err String
  pexelsResp : String → Except Err (List String)
  downloadResp : String → Except Err Unit
  genImageResp : String → Except Err String

/-- Directory prefix standing for config.TEMP_DIR. -/
def tempDir : String := "tmp/images/"

/-- utils.generate_image_filename with the uuid prefix abstracted away. -/
def generate_image_filename (canonical_form : String) (index : Nat) : String :=
  canonical_form ++ "_" ++ toString index ++ ".jpg"

/-- Python str.strip with no arguments: remove leading and trailing
whitespace.  Implemented on the character list so that it evaluates inside
the kernel. -/
def pyStrip (s : String) : String :=
  String.mk (((s.data.dropWhile Char.isWhitespace).reverse.dropWhile
    Char.isWhitespace).reverse)

/-- Python str.startswith, on character lists. -/
def pyStartsWith (s pre : String) : Bool :=
  pre.data.isPrefixOf s.data

/-- Python str.endswith, on character lists. -/
def pyEndsWith (s suf : String) : Bool :=
  suf.data.reverse.isPrefixOf s.data.reverse

/-- config.BATCH_SIZE default. -/
def BATCH_SIZE : Nat := 20

/-- Test of word_type == COMPLEX, the gate of Stages 2 to 4 in
Pipeline._process_batch. -/
def isComplex (e : WordEntry) : Bool :=
  e.word_type == some "COMPLEX"

/-- Merging helper: walk the flagged entry list, update the first entry that
is selected and hits, leave everything else in place.  Returns the updated
entry when a match happened.  This models the source idiom
next((e for e in words_to_process if e.original == word), None) followed by
in-place mutation of the matched object. -/
def mergeFirst (hits : WordEntry → Bool) (upd : WordEntry → WordEntry) :
    List (WordEntry × Bool) → Option WordEntry × List (WordEntry × Bool)
  | [] => (none, [])
  | (e, s) :: rest =>
    if s && hits e then
      ((some (upd e)), (upd e, s) :: rest)
    else
      let r := mergeFirst hits upd rest
      (r.1, (e, s) :: r.2)

/-- Stage 1 skip check (pipeline.py lines 99 to 103): keyed by the original
spelling. -/
def stage1Select (force test_mode : Bool) (db : Db) (e : WordEntry) : Bool :=
  test_mode || force || (get_word_status db (some e.original)).isNone

/-- Field assignment of one Stage 1 response item onto its matched entry. -/
def apply1 (item : MetaItem) (e : WordEntry) : WordEntry :=
  { e with
    canonical_form := item.canonical_form
    part_of_speech := item.part_of_speech
    word_type := item.word_type
    translation := item.translation }

/-- Stage 1 per-item merge step: match by word tag, assign the four metadata
fields, and (outside test mode) write a fresh status with metadata true under
the canonical form just assigned. -/
def stage1Item (test_mode : Bool) (item : MetaItem)
    (st : List (WordEntry × Bool) × Db) : List (WordEntry × Bool) × Db :=
  match mergeFirst (fun e => item.word == some e.original) (apply1 item) st.1 with
  | (none, l) => (l, st.2)
  | (some e1, l) =>
    if test_mode then (l, st.2)
    else (l, update_word_status st.2 e1.canonical_form { metadata := true })

/-- Pipeline._run_stage_1_metadata over one batch. -/
def runStage1 (force test_mode : Bool) (orc : Oracles)
    (entries : List WordEntry) (db : Db) :
    List Ev × Except Err (List WordEntry × Db) :=
  let flagged := entries.map (fun e => (e, stage1Select force test_mode db e))
  let toProc := (flagged.filter (fun p => p.2)).map (fun p => p.1.original)
  if toProc.isEmpty then ([], .ok (entries, db))
  else
    match orc.metaResp toProc with
    | .error err => ([Ev.chatBulk 1 toProc], .error err)
    | .ok resp =>
      let res := resp.foldl (fun st item => stage1Item test_mode item st) (flagged, db)
      ([Ev.chatBulk 1 toProc], .ok (res.1.map (fun p => p.1), res.2))

/-- Stage 2 skip check (pipeline.py lines 151 to 159): keyed by the canonical
form, selecting on force, an absent status, or an unset definition flag. -/
def stage2Select (force test_mode : Bool) (db : Db) (e : WordEntry) : Bool :=
  test_mode ||
    (match get_word_status db e.canonical_form with
     | none => true
     | some st => force || !st.definition)

/-- Stage 2 completion write (pipeline.py lines 190 to 192): read the stored
status or synthesize one with metadata preset true, set definition, write. -/
def stage2WriteBack (db : Db) (k : Option String) : Db :=
  let status := (get_word_status db k).getD { metadata := true }
  update_word_status db k { status with definition := true }

/-- Field assignment of one Stage 2 response item. -/
def apply2 (item : DefItem) (e : WordEntry) : WordEntry :=
  { e with definition := item.definition }

/-- Stage 2 per-item merge step. -/
def stage2Item (test_mode : Bool) (item : DefItem)
    (st : List (WordEntry × Bool) × Db) : List (WordEntry × Bool) × Db :=
  match mergeFirst (fun e => item.word == some e.original) (apply2 item) st.1 with
  | (none, l) => (l, st.2)
  | (some e1, l) =>
    if test_mode then (l, st.2)
    else (l, stage2WriteBack st.2 e1.canonical_form)

/-- Pipeline._run_stage_2_definition over the COMPLEX entries of one batch.
The sublist complex_entries of the source is modelled by the isComplex
conjunct in the selection flag. -/
def runStage2 (force test_mode : Bool) (orc : Oracles)
    (entries : List WordEntry) (db : Db) :
    List Ev × Except Err (List WordEntry × Db) :=
  let flagged := entries.map (fun e =>
    (e, isComplex e && stage2Select force test_mode db e))
  let toProc := (flagged.filter (fun p => p.2)).map (fun p => p.1.original)
  if toProc.isEmpty then ([], .ok (entries, db))
  else
    match orc.defResp toProc with
    | .error err => ([Ev.chatBulk 2 toProc], .error err)
    | .ok resp =>
      let res := resp.foldl (fun st item => stage2Item test_mode item st) (flagged, db)
      ([Ev.chatBulk 2 toProc], .ok (res.1.map (fun p => p.1), res.2))

/-- Stage 3 skip check, selecting on force, an absent status, or an unset
examples flag. -/
def stage3Select (force test_mode : Bool) (db : Db) (e : WordEntry) : Bool :=
  test_mode ||
    (match get_word_status db e.canonical_form with
     | none => true
     | some st => force || !st.examples)

/-- Stage 3 completion write: fresh fallback presets metadata and definition
true, then the examples flag is set. -/
def stage3WriteBack (db : Db) (k : Option String) : Db :=
  let status := (get_word_status db k).getD { metadata := true, definition := true }
  update_word_status db k { status with examples := true }

/-- Field assignment of one Stage 3 response item; the source reads the key
with a default of the empty list, item.get with two arguments. -/
def apply3 (item : ExItem) (e : WordEntry) : WordEntry :=
  { e with example_sentences := some (item.example_sentences.getD []) }

/-- Stage 3 per-item merge step. -/
def stage3Item (test_mode : Bool) (item : ExItem)
    (st : List (WordEntry × Bool) × Db) : List (WordEntry × Bool) × Db :=
  match mergeFirst (fun e => item.word == some e.original) (apply3 item) st.1 with
  | (none, l) => (l, st.2)
  | (some e1, l) =>
    if test_mode then (l, st.2)
    else (l, stage3WriteBack st.2 e1.canonical_form)

/-- Pipeline._run_stage_3_examples over the COMPLEX entries of one batch. -/
def runStage3 (force test_mode : Bool) (orc : Oracles)
    (entries : List WordEntry) (db : Db) :
    List Ev × Except Err (List WordEntry × Db) :=
  let flagged := entries.map (fun e =>
    (e, isComplex e && stage3Select force test_mode db e))
  let toProc := (flagged.filter (fun p => p.2)).map (fun p => p.1.original)
  if toProc.isEmpty then ([], .ok (entries, db))
  else
    match orc.exResp toProc with
    | .error err => ([Ev.chatBulk 3 toProc], .error err)
    | .ok resp =>
      let res := resp.foldl (fun st item => stage3Item test_mode item st) (flagged, db)
      ([Ev.chatBulk 3 toProc], .ok (res.1.map (fun p => p.1), res.2))

/-- Stage 4 skip check, selecting on force, an absent status, or an unset
image_prompt flag. -/
def stage4Select (force test_mode : Bool) (db : Db) (e : WordEntry) : Bool :=
  test_mode ||
    (match get_word_status db e.canonical_form with
     | none => true
     | some st => force || !st.image_prompt)

/-- Stage 4 completion write (pipeline.py lines 299 to 301): fresh fallback
presets metadata, definition and examples true, then image_prompt is set. -/
def stage4WriteBack (db : Db) (k : Option String) : Db :=
  let status := (get_word_status db k).getD
    { metadata := true, definition := true, examples := true }
  update_word_status db k { status with image_prompt := true }

/-- Stage 4 body, one chat call per selected entry; the gather of
process_single_prompt tasks is serialized in list order.  A failing call
logs and re-raises, aborting the stage. -/
def stage4Go (test_mode : Bool) (orc : Oracles) :
    List (WordEntry × Bool) → Db → List Ev × Except Err (List WordEntry × Db)
  | [], db => ([], .ok ([], db))
  | (e, s) :: rest, db =>
    if s then
      match orc.promptResp e with
      | .error err => ([Ev.chatPrompt e.original], .error err)
      | .ok resp =>
        let e1 := { e with image_prompt := some (pyStrip resp) }
        let db1 := if test_mode then db else stage4WriteBack db e1.canonical_form
        match stage4Go test_mode orc rest db1 with
        | (evs, .error err) => (Ev.chatPrompt e.original :: evs, .error err)
        | (evs, .ok (l, db2)) => (Ev.chatPrompt e.original :: evs, .ok (e1 :: l, db2))
    else
      match stage4Go test_mode orc rest db with
      | (evs, .error err) => (evs, .error err)
      | (evs, .ok (l, db2)) => (evs, .ok (e :: l, db2))

/-- Pipeline._run_stage_4_image_prompt over the COMPLEX entries of one batch. -/
def runStage4 (force test_mode : Bool) (orc : Oracles)
    (entries : List WordEntry) (db : Db) :
    List Ev × Except Err (List WordEntry × Db) :=
  let flagged := entries.map (fun e =>
    (e, isComplex e && stage4Select force test_mode db e))
  stage4Go test_mode orc flagged db

/-- Reading of the image_generation flag from an optional status, as done by
the Stage 5 checks (status and status.image_generation). -/
def statusImageGen : Option StageStatus → Bool
  | some st => st.image_generation
  | none => false

/-- Stage 5 selection (pipeline.py lines 320 to 330): an entry without a
canonical form is excluded before any force or test mode consideration; an
entry with a stored image_generation flag is skipped unless force. -/
def stage5Select (force test_mode : Bool) (db : Db) (e : WordEntry) : Bool :=
  e.canonical_form.isSome &&
    !(!test_mode && !force && statusImageGen (get_word_status db e.canonical_form))

/-- Stage 5 completion write (pipeline.py lines 360 to 362): the fresh
fallback is the empty StageStatus, then image_generation is set. -/
def stage5WriteBack (db : Db) (k : Option String) : Db :=
  let status := (get_word_status db k).getD {}
  update_word_status db k { status with image_generation := true }

/-- Truthiness of entry.image_files in the Stage 5 success check: a present,
nonempty list. -/
def imageFilesNonempty (e : WordEntry) : Bool :=
  match e.image_files with
  | some (_ :: _) => true
  | _ => false

/-- Download loop of Pipeline._fetch_pexels_images: each url is attempted;
a failing download is caught, logged and skipped, the loop continues.  The
successful file paths are collected in order. -/
def downloadLoop (orc : Oracles) (word cf : String) :
    List String → Nat → List String × List Ev
  | [], _ => ([], [])
  | url :: rest, i =>
    let tail := downloadLoop orc word cf rest (i + 1)
    match orc.downloadResp url with
    | .error _ => (tail.1, Ev.downloadImg word url :: tail.2)
    | .ok _ =>
      ((tempDir ++ generate_image_filename cf i) :: tail.1,
       Ev.downloadImg word url :: tail.2)

/-- Pipeline._fetch_pexels_images: early return without a translation or a
canonical form; a failing search propagates; an empty result list returns
with image_files untouched; otherwise the downloads run and image_files is
assigned the collected list (possibly empty). -/
def fetchPexelsImages (orc : Oracles) (e : WordEntry) :
    List Ev × Except Err WordEntry :=
  match e.translation with
  | none => ([], .ok e)
  | some tr =>
    match e.canonical_form with
    | none => ([], .ok e)
    | some cf =>
      match orc.pexelsResp tr with
      | .error err => ([Ev.pexelsSearch e.original tr], .error err)
      | .ok urls =>
        if urls.isEmpty then ([Ev.pexelsSearch e.original tr], .ok e)
        else
          let dl := downloadLoop orc e.original cf urls 0
          (Ev.pexelsSearch e.original tr :: dl.2,
           .ok { e with image_files := some dl.1 })

/-- Pipeline._generate_dalle_image: early return without an image prompt or a
canonical form; a failing generation is re-raised wrapped in a new message;
on success the decoded bytes are written to one file and image_files becomes
that singleton. -/
def generateDalleImage (orc : Oracles) (e : WordEntry) :
    List Ev × Except Err WordEntry :=
  match e.image_prompt with
  | none => ([], .ok e)
  | some p =>
    match e.canonical_form with
    | none => ([], .ok e)
    | some cf =>
      match orc.genImageResp p with
      | .error err =>
        ([Ev.genImage e.original p],
         .error ("Image generation failed for " ++ e.original ++ ": " ++ err))
      | .ok _ =>
        ([Ev.genImage e.original p],
         .ok { e with image_files := some [tempDir ++ generate_image_filename cf 0] })

/-- Stage 5 branch dispatch (pipeline.py lines 350 to 355): SIMPLE goes to
the stock photo path, everything else to the generation path. -/
def stage5ProcessItem (orc : Oracles) (e : WordEntry) :
    List Ev × Except Err WordEntry :=
  if e.word_type == some "SIMPLE" then fetchPexelsImages orc e
  else generateDalleImage orc e

/-- Stage 5 main loop over the flagged batch (pipeline.py lines 340 to 373):
unselected entries pass through; a selected entry is rechecked (canonical
form present, flag still unset unless force), processed by its branch, the
status written only when image_files came out nonempty, and a 3 second pause
is issued when a later selected entry exists; a skipped iteration issues no
pause of its own.  Any branch error propagates and aborts the stage. -/
def stage5Go (force test_mode : Bool) (orc : Oracles) :
    List (WordEntry × Bool) → Db → List Ev × Except Err (List WordEntry × Db)
  | [], db => ([], .ok ([], db))
  | (e, s) :: rest, db =>
    if !s then
      match stage5Go force test_mode orc rest db with
      | (evs, .error err) => (evs, .error err)
      | (evs, .ok (l, db2)) => (evs, .ok (e :: l, db2))
    else if e.canonical_form.isNone then
      match stage5Go force test_mode orc rest db with
      | (evs, .error err) => (evs, .error err)
      | (evs, .ok (l, db2)) => (evs, .ok (e :: l, db2))
    else if !test_mode && !force && statusImageGen (get_word_status db e.canonical_form) then
      match stage5Go force test_mode orc rest db with
      | (evs, .error err) => (evs, .error err)
      | (evs, .ok (l, db2)) => (evs, .ok (e :: l, db2))
    else
      match stage5ProcessItem orc e with
      | (evs, .error err) => (evs, .error err)
      | (evs, .ok e1) =>
        let db1 := if imageFilesNonempty e1 && !test_mode
          then stage5WriteBack db e1.canonical_form else db
        let pause := if rest.any (fun p => p.2) then [Ev.sleep 3] else []
        match stage5Go force test_mode orc rest db1 with
        | (evs2, .error err) => (evs ++ pause ++ evs2, .error err)
        | (evs2, .ok (l, db2)) => (evs ++ pause ++ evs2, .ok (e1 :: l, db2))

/-- Pipeline._run_stage_5_images over one batch. -/
def runStage5 (force test_mode : Bool) (orc : Oracles)
    (entries : List WordEntry) (db : Db) :
    List Ev × Except Err (List WordEntry × Db) :=
  let flagged := entries.map (fun e => (e, stage5Select force test_mode db e))
  stage5Go force test_mode orc flagged db

/-- Pipeline._process_batch: Stages 1 to 5 in order over one batch.  The
source computes complex_entries once after Stage 1 and guards Stages 2 to 4
on its nonemptiness; since Stages 2 to 4 never change word_type, evaluating
the isComplex conjunct inside each runStage is equivalent, and an empty
selection issues no external call either way. -/
def processBatchEntries (force test_mode : Bool) (orc : Oracles)
    (entries : List WordEntry) (db : Db) :
    List Ev × Except Err (List WordEntry × Db) :=
  match runStage1 force test_mode orc entries db with
  | (t1, .error err) => (t1, .error err)
  | (t1, .ok (es1, db1)) =>
    match runStage2 force test_mode orc es1 db1 with
    | (t2, .error err) => (t1 ++ t2, .error err)
    | (t2, .ok (es2, db2)) =>
      match runStage3 force test_mode orc es2 db2 with
      | (t3, .error err) => (t1 ++ t2 ++ t3, .error err)
      | (t3, .ok (es3, db3)) =>
        match runStage4 force test_mode orc es3 db3 with
        | (t4, .error err) => (t1 ++ t2 ++ t3 ++ t4, .error err)
        | (t4, .ok (es4, db4)) =>
          match runStage5 force test_mode orc es4 db4 with
          | (t5, .error err) => (t1 ++ t2 ++ t3 ++ t4 ++ t5, .error err)
          | (t5, .ok (es5, db5)) =>
            (t1 ++ t2 ++ t3 ++ t4 ++ t5, .ok (es5, db5))

/-- Result assembly of Pipeline._process_batch lines 81 to 88: each entry is
paired with its stored status read back by canonical form, the empty status
in test mode or when nothing is stored. -/
def batchResults (test_mode : Bool) (db : Db) (entries : List WordEntry) :
    List (WordEntry × StageStatus) :=
  entries.map (fun e =>
    (e, if test_mode then {} else (get_word_status db e.canonical_form).getD {}))

/-- Chunking worker, structurally recursive on a fuel that the caller sets
to the list length; every step consumes at least the head, so the fuel never
runs out on the intended calls. -/
def chunkListAux (n : Nat) : Nat → List WordEntry → List (List WordEntry)
  | _, [] => []
  | 0, l => [l]
  | fuel + 1, x :: xs => (x :: xs.take (n - 1)) :: chunkListAux n fuel (xs.drop (n - 1))

/-- Chunking of the entry list into batches of BATCH_SIZE, as the slicing
loop of Pipeline.process_batch does. -/
def chunkList (n : Nat) (l : List WordEntry) : List (List WordEntry) :=
  chunkListAux n l.length l

/-- Sequential schedule of the asyncio.gather over batch tasks: batches run
in order, each against the store state the previous one left. -/
def processBatches (force test_mode : Bool) (orc : Oracles) :
    List (List WordEntry) → Db → List Ev × Except Err (List WordEntry × Db)
  | [], db => ([], .ok ([], db))
  | b :: bs, db =>
    match processBatchEntries force test_mode orc b db with
    | (t, .error err) => (t, .error err)
    | (t, .ok (es, db1)) =>
      match processBatches force test_mode orc bs db1 with
      | (t2, .error err) => (t ++ t2, .error err)
      | (t2, .ok (es2, db2)) => (t ++ t2, .ok (es ++ es2, db2))

/-- Pipeline.process_batch: fresh entries from the raw words, chunked into
batches, each batch run through the five stages. -/
def process (force test_mode : Bool) (orc : Oracles) (words : List String)
    (db : Db) : List Ev × Except Err (List WordEntry × Db) :=
  processBatches force test_mode orc
    (chunkList BATCH_SIZE (words.map (fun w => { original := w }))) db

/-- Test whether an event concerns the given input word: bulk requests list
the originals they were built from, per item calls carry the original of the
entry they were made for. -/
def evMentions (w : String) : Ev → Bool
  | .chatBulk _ ws => ws.contains w
  | .chatPrompt x => x == w
  | .pexelsSearch x _ => x == w
  | .downloadImg x _ => x == w
  | .genImage x _ => x == w
  | .sleep _ => false

/-- Store read with an explicit connection outcome: utils.get_word_status
wraps no try or except around connect, execute and fetchone, so a store
error propagates to the caller; only a fetched empty row set maps to an
absent status. -/
def get_word_statusConn (conn : Except Err Db) (k : Option String) :
    Except Err (Option StageStatus) :=
  match conn with
  | .error err => .error err
  | .ok db => .ok (get_word_status db k)

/-- Error kinds of openai_client.call_chat_json: a transport failure
re-raised from call_chat, or the ValueError raised on malformed JSON. -/
inductive ChatJsonErr where
  | transport (msg : String)
  | valueError (msg : String)
  deriving Repr, DecidableEq

/-- Fence stripping of openai_client.call_chat_json lines 81 to 86: strip,
drop a leading json code fence opener of seven characters, drop a trailing
fence of three characters, strip again. -/
def stripJsonFences (s : String) : String :=
  let r := pyStrip s
  let r1 := if pyStartsWith r "```json" then r.drop 7 else r
  let r2 := if pyEndsWith r1 "```" then r1.dropRight 3 else r1
  pyStrip r2

/-- openai_client.call_chat_json: the transport call either fails (re-raised
unwrapped, kept as the transport kind) or yields text; the text is cleaned
by stripJsonFences and parsed; a parse failure raises a ValueError carrying
the cleaned text.  The JSON parser is an explicit parameter. -/
def call_chat_json (chatResult : Except Err String)
    (parseJsonArray : String → Option (List MetaItem)) :
    Except ChatJsonErr (List MetaItem) :=
  match chatResult with
  | .error e => .error (.transport e)
  | .ok resp =>
    let cleaned := stripJsonFences resp
    match parseJsonArray cleaned with
    | none => .error (.valueError ("Invalid JSON response: " ++ cleaned))
    | some v => .ok v

/-- Predicate picking out pause events. -/
def isSleepEv : Ev → Bool
  | .sleep _ => true
  | _ => false

/-- Predicate picking out stock photo path events (search and download). -/
def isStockEv : Ev → Bool
  | .pexelsSearch _ _ => true
  | .downloadImg _ _ => true
  | _ => false

/-- Predicate picking out generation path events. -/
def isGenEv : Ev → Bool
  | .genImage _ _ => true
  | _ => false

/-- Reachability of one store state from another by update_word_status steps;
every store write of the pipeline is such a step. -/
def DbReach (d d' : Db) : Prop :=
  Relation.ReflTransGen (fun a b => ∃ k s, b = update_word_status a k s) d d'

/-- Oracle stub whose every call fails; concrete scenarios override the
fields they exercise, so an unexpected call shows up as an error. -/
def orcStub : Oracles where
  metaResp := fun _ => .error "unused"
  defResp := fun _ => .error "unused"
  exResp := fun _ => .error "unused"
  promptResp := fun _ => .error "unused"
  pexelsResp := fun _ => .error "unused"
  downloadResp := fun _ => .error "unused"
  genImageResp := fun _ => .error "unused"

/-- Scenario oracle: one word jabuke whose canonical form jabuka differs
from the original spelling, classified COMPLEX, with every stage succeeding. -/
def metaItemJabuke : MetaItem :=
  { word := some "jabuke"
    canonical_form := some "jabuka"
    part_of_speech := some "imenica"
    word_type := some "COMPLEX"
    translation := some "apples" }

/-- Oracle of the scenario around metaItemJabuke; every stage succeeds. -/
def orcCanonDiffers : Oracles :=
  { orcStub with
    metaResp := fun _ => .ok [metaItemJabuke]
    defResp := fun _ => .ok [{ word := some "jabuke", definition := some "def" }]
    exResp := fun _ => .ok [{ word := some "jabuke", example_sentences := some ["ex"] }]
    promptResp := fun _ => .ok "a prompt"
    genImageResp := fun _ => .ok "png" }

/-- The store contents after a first full run of process on the word jabuke
against an empty store, under orcCanonDiffers. -/
def dbAfterFirstRun : Db :=
  match (process false false orcCanonDiffers ["jabuke"] []).2 with
  | .ok r => r.2
  | .error _ => []

/-- Scenario entry: a SIMPLE word with canonical form pas and translation
dog, not yet processed by Stage 5. -/
def entSimplePas : WordEntry :=
  { original := "pas", canonical_form := some "pas",
    word_type := some "SIMPLE", translation := some "dog" }

/-- Scenario oracle: the stock photo search finds one url and its download
succeeds. -/
def orcPexelsOk : Oracles :=
  { orcStub with
    pexelsResp := fun _ => .ok ["http1"]
    downloadResp := fun _ => .ok () }

/-- Scenario oracle: the stock photo search finds one url and its download
fails. -/
def orcDownloadFails : Oracles :=
  { orcStub with
    pexelsResp := fun _ => .ok ["http1"]
    downloadResp := fun _ => .error "connection reset" }

/-- Scenario entry: a COMPLEX entry that never received a canonical form. -/
def entNoCanon : WordEntry :=
  { original := "ljubav", word_type := some "COMPLEX" }

/-- Scenario oracle for a Stage 2 run whose bulk response is empty. -/
def orcEmptyDef : Oracles :=
  { orcStub with defResp := fun _ => .ok [] }

/-- Scenario entries: three SIMPLE words with distinct canonical forms, for
the Stage 5 pacing scenario. -/
def entPace1 : WordEntry :=
  { original := "pas", canonical_form := some "pas",
    word_type := some "SIMPLE", translation := some "dog" }

/-- Second pacing scenario entry. -/
def entPace2 : WordEntry :=
  { original := "macka", canonical_form := some "macka",
    word_type := some "SIMPLE", translation := some "cat" }

/-- Third pacing scenario entry. -/
def entPace3 : WordEntry :=
  { original := "riba", canonical_form := some "riba",
    word_type := some "SIMPLE", translation := some "fish" }

/-- Fresh entry as process_batch creates it for the raw word x. -/
def entFreshX : WordEntry := { original := "x" }

/-- Stage 1 response item for x carrying no canonical form. -/
def itemXComplex : MetaItem := { word := some "x", word_type := some "COMPLEX" }

/-- Entry with an image prompt, ready for the generation path. -/
def entComplexPrompt : WordEntry :=
  { original := "ljubav", canonical_form := some "ljubav",
    word_type := some "COMPLEX", image_prompt := some "a heart" }

/-- Oracle whose image generation fails. -/
def orcGenFails : Oracles :=
  { orcStub with genImageResp := fun _ => .error "boom" }

/-- Oracle whose per item prompt call succeeds. -/
def orcPromptOk : Oracles :=
  { orcStub with promptResp := fun _ => .ok "a prompt" }

/-- Stage 1 response item classifying pas as SIMPLE. -/
def metaItemPas : MetaItem :=
  { word := some "pas"
    canonical_form := some "pas"
    part_of_speech := some "imenica"
    word_type := some "SIMPLE"
    translation := some "dog" }

/-- Oracle classifying pas as a SIMPLE word and serving its stock photos. -/
def orcSimplePas : Oracles :=
  { orcStub with
    metaResp := fun _ => .ok [metaItemPas]
    pexelsResp := fun _ => .ok ["http1"]
    downloadResp := fun _ => .ok () }

/-- Store holding a fully completed status under the original spelling. -/
def dbKeyedByOriginal : Db :=
  [(some "jabuke",
    { metadata := true, definition := true, examples := true,
      image_prompt := true, image_generation := true })]

/-! Store lemmas. -/

theorem sqlEq_none_right (k : Option String) : sqlEq k none = false := by
  cases k <;> rfl

theorem sqlEq_none_left (k : Option String) : sqlEq none k = false := rfl

theorem sqlEq_trans_right {a k k2 : Option String}
    (h1 : sqlEq a k = true) (h2 : sqlEq a k2 = true) : sqlEq k2 k = true := by
  cases a <;> cases k <;> cases k2 <;> simp_all [sqlEq]

theorem get_word_status_none (db : Db) : get_word_status db none = none := by
  unfold get_word_status
  have h : db.find? (fun r => sqlEq r.1 none) = none :=
    List.find?_eq_none.mpr (fun r _ => by simp [sqlEq_none_right])
  rw [h]
  rfl

theorem update_word_status_none (db : Db) (s : StageStatus) :
    update_word_status db none s = (none, s) :: db := by
  unfold update_word_status
  congr 1
  apply List.filter_eq_self.mpr
  intro r _
  simp [sqlEq_none_right]

theorem get_word_status_cons_none (db : Db) (s : StageStatus) (k : Option String) :
    get_word_status ((none, s) :: db) k = get_word_status db k := by
  unfold get_word_status
  simp [List.find?_cons, sqlEq_none_left]

theorem find?_filter_ne {k2 k : Option String} (h : sqlEq k2 k = false) (db : Db) :
    (db.filter (fun r => !sqlEq r.1 k2)).find? (fun r => sqlEq r.1 k) =
      db.find? (fun r => sqlEq r.1 k) := by
  induction db with
  | nil => rfl
  | cons r rest ih =>
    by_cases hr2 : sqlEq r.1 k2 = true
    · have hk : sqlEq r.1 k = false := by
        by_contra hh
        rw [Bool.not_eq_false] at hh
        simp [sqlEq_trans_right hh hr2] at h
      rw [List.filter_cons_of_neg (by simp [hr2]), List.find?_cons_of_neg _ (by simp [hk])]
      exact ih
    · rw [Bool.not_eq_true] at hr2
      rw [List.filter_cons_of_pos (by simp [hr2])]
      by_cases hk : sqlEq r.1 k = true
      · simp [List.find?_cons, hk]
      · rw [Bool.not_eq_true] at hk
        simp only [List.find?_cons, hk]
        exact ih

theorem get_update_ne {k2 k : Option String} (h : sqlEq k2 k = false)
    (db : Db) (s : StageStatus) :
    get_word_status (update_word_status db k2 s) k = get_word_status db k := by
  unfold get_word_status update_word_status
  rw [List.find?_cons_of_neg _ (by simp [h]), find?_filter_ne h]

theorem get_update_isSome {db : Db} {k : Option String}
    (h : (get_word_status db k).isSome = true) (k2 : Option String) (s : StageStatus) :
    (get_word_status (update_word_status db k2 s) k).isSome = true := by
  by_cases hk : sqlEq k2 k = true
  · unfold get_word_status update_word_status
    simp [List.find?_cons, hk]
  · rw [Bool.not_eq_true] at hk
    rw [get_update_ne hk]
    exact h

theorem dbReach_update (d : Db) (k : Option String) (s : StageStatus) :
    DbReach d (update_word_status d k s) :=
  Relation.ReflTransGen.single ⟨k, s, rfl⟩

theorem dbReach_isSome {d d' : Db} (h : DbReach d d') (k : Option String)
    (hs : (get_word_status d k).isSome = true) :
    (get_word_status d' k).isSome = true := by
  induction h with
  | refl => exact hs
  | tail _ hstep ih =>
    obtain ⟨k2, s, rfl⟩ := hstep
    exact get_update_isSome ih k2 s

theorem dbReach_trans {a b c : Db} (h1 : DbReach a b) (h2 : DbReach b c) :
    DbReach a c :=
  Relation.ReflTransGen.trans h1 h2

theorem dbReach_writeBack2 (d : Db) (k : Option String) :
    DbReach d (stage2WriteBack d k) :=
  Relation.ReflTransGen.single ⟨k, _, rfl⟩

theorem dbReach_writeBack3 (d : Db) (k : Option String) :
    DbReach d (stage3WriteBack d k) :=
  Relation.ReflTransGen.single ⟨k, _, rfl⟩

theorem dbReach_writeBack4 (d : Db) (k : Option String) :
    DbReach d (stage4WriteBack d k) :=
  Relation.ReflTransGen.single ⟨k, _, rfl⟩

theorem dbReach_writeBack5 (d : Db) (k : Option String) :
    DbReach d (stage5WriteBack d k) :=
  Relation.ReflTransGen.single ⟨k, _, rfl⟩

/-! Merge helper lemmas. -/

theorem mergeFirst_fst_some (hits : WordEntry → Bool) (upd : WordEntry → WordEntry) :
    ∀ (l : List (WordEntry × Bool)) (e1 : WordEntry),
      (mergeFirst hits upd l).1 = some e1 → ∃ e, hits e = true ∧ e1 = upd e := by
  intro l
  induction l with
  | nil => intro e1 h; simp [mergeFirst] at h
  | cons p rest ih =>
    intro e1 h
    obtain ⟨e, s⟩ := p
    by_cases hc : (s && hits e) = true
    · simp only [mergeFirst, hc, if_true] at h
      obtain ⟨rfl⟩ := Option.some.inj h
      simp only [Bool.and_eq_true] at hc
      exact ⟨e, hc.2, rfl⟩
    · simp only [mergeFirst, hc, if_false, Bool.false_eq_true] at h
      exact ih e1 h

/-- C5: the store read of utils.get_word_status distinguishes a failing read
from an absent key: a connection or query error propagates unchanged (the
source wraps no handler around it), a clean read with no matching row, and
only that, yields an absent status. -/
theorem c5_store_read_failure :
    (∀ (err : Err) (k : Option String), get_word_statusConn (.error err) k = .error err) ∧
    (∀ (db : Db) (k : Option String), (∀ r ∈ db, sqlEq r.1 k = false) →
      get_word_statusConn (.ok db) k = .ok none) ∧
    (∀ (conn : Except Err Db) (k : Option String),
      get_word_statusConn conn k = .ok none →
      ∃ db, conn = .ok db ∧ ∀ r ∈ db, sqlEq r.1 k = false) := by
  refine ⟨fun err k => rfl, fun db k h => ?_, fun conn k h => ?_⟩
  · have hf : db.find? (fun r => sqlEq r.1 k) = none :=
      List.find?_eq_none.mpr (fun r hr => by simp [h r hr])
    simp [get_word_statusConn, get_word_status, hf]
  · cases conn with
    | error err => simp [get_word_statusConn] at h
    | ok db =>
      refine ⟨db, rfl, ?_⟩
      simp only [get_word_statusConn, Except.ok.injEq] at h
      intro r hr
      have hf : db.find? (fun r => sqlEq r.1 k) = none := by
        unfold get_word_status at h
        exact Option.map_eq_none'.mp h
      have := List.find?_eq_none.mp hf r hr
      simpa using this

/-- Witness for c5_store_read_failure at a concrete store and key. -/
theorem c5_store_read_failure_witness :
    ((∀ r ∈ ([] : Db), sqlEq r.1 (some "pas") = false) ∧
      get_word_statusConn (.ok ([] : Db)) (some "pas") = .ok none) ∧
    get_word_statusConn (.error "disk gone") (some "pas") = .error "disk gone" :=
  ⟨⟨by simp, c5_store_read_failure.2.1 [] (some "pas") (by simp)⟩,
   c5_store_read_failure.1 "disk gone" (some "pas")⟩

/-- C9: call_chat_json strips optional code fence wrapping from the text
before parsing it as a JSON array; a malformed response yields the distinct
ValueError kind carrying the cleaned text, while a transport failure is
re-raised unwrapped as the transport kind; the two kinds never coincide. -/
theorem c9_call_chat_json :
    (∀ (e : Err) (parse : String → Option (List MetaItem)),
      call_chat_json (.error e) parse = .error (.transport e)) ∧
    (∀ (resp : String) (parse : String → Option (List MetaItem)),
      parse (stripJsonFences resp) = none →
      call_chat_json (.ok resp) parse =
        .error (.valueError ("Invalid JSON response: " ++ stripJsonFences resp))) ∧
    (∀ (resp : String) (parse : String → Option (List MetaItem)) (v : List MetaItem),
      parse (stripJsonFences resp) = some v →
      call_chat_json (.ok resp) parse = .ok v) ∧
    stripJsonFences " ```json [1, 2] ``` " = "[1, 2]" ∧
    (∀ m m2, ChatJsonErr.transport m ≠ ChatJsonErr.valueError m2) := by
  refine ⟨fun e parse => rfl, fun resp parse h => ?_, fun resp parse v h => ?_,
    by decide, fun m m2 h => by cases h⟩
  · simp [call_chat_json, h]
  · simp [call_chat_json, h]

/-- Witness for c9_call_chat_json on a fenced and a malformed response. -/
theorem c9_call_chat_json_witness :
    ((fun s => if s = "[1, 2]" then some [] else none) (stripJsonFences " ```json [1, 2] ``` ") =
      some ([] : List MetaItem) ∧
     call_chat_json (.ok " ```json [1, 2] ``` ")
       (fun s => if s = "[1, 2]" then some [] else none) = .ok []) ∧
    ((fun _ => (none : Option (List MetaItem))) (stripJsonFences "oops") = none ∧
     call_chat_json (.ok "oops") (fun _ => none) =
       .error (.valueError ("Invalid JSON response: " ++ stripJsonFences "oops"))) :=
  ⟨⟨by decide, c9_call_chat_json.2.2.1 " ```json [1, 2] ``` "
      (fun s => if s = "[1, 2]" then some [] else none) [] (by decide)⟩,
   ⟨rfl, c9_call_chat_json.2.1 "oops" (fun _ => none) rfl⟩⟩

/-- C2, counterexample: a Stage 5 success for a word with no stored status
synthesizes the empty StageStatus, not one with the prior stage flags
preset: after the run the persisted record has image_generation true but
metadata, definition, examples and image_prompt all false. -/
theorem c2_counterexample :
    (runStage5 false false orcPexelsOk [entSimplePas] []).2 =
      .ok ([{ entSimplePas with image_files := some ["tmp/images/pas_0.jpg"] }],
           [(some "pas", { image_generation := true })]) ∧
    StageStatus.metadata { image_generation := true } = false ∧
    StageStatus.definition { image_generation := true } = false ∧
    StageStatus.examples { image_generation := true } = false ∧
    StageStatus.image_prompt { image_generation := true } = false := by
  refine ⟨by decide, rfl, rfl, rfl, rfl⟩

/-- C2, amended: when no status is stored under the key, the completion
writes of Stages 2 to 4 synthesize a fresh status with exactly the prior
stage flags preset true and the current flag set; the Stage 5 write instead
synthesizes the empty status, so only image_generation is set. -/
theorem c2_amended_write_policy :
    ∀ (db : Db) (k : Option String), get_word_status db k = none →
      stage2WriteBack db k =
        update_word_status db k { metadata := true, definition := true } ∧
      stage3WriteBack db k =
        update_word_status db k { metadata := true, definition := true, examples := true } ∧
      stage4WriteBack db k =
        update_word_status db k
          { metadata := true, definition := true, examples := true, image_prompt := true } ∧
      stage5WriteBack db k =
        update_word_status db k { image_generation := true } := by
  intro db k h
  refine ⟨?_, ?_, ?_, ?_⟩ <;>
    simp [stage2WriteBack, stage3WriteBack, stage4WriteBack, stage5WriteBack, h]

/-- Witness for c2_amended_write_policy on the empty store. -/
theorem c2_amended_write_policy_witness :
    get_word_status [] (some "kuca") = none ∧
    stage5WriteBack [] (some "kuca") =
      update_word_status [] (some "kuca") { image_generation := true } :=
  ⟨by decide, (c2_amended_write_policy [] (some "kuca") (by decide)).2.2.2⟩

/-- C3, counterexample: an entity lacking canonical_form but classified
COMPLEX is not excluded from Stage 2: its filter selects it (the null keyed
status lookup finds nothing) and the bulk request lists its original
spelling. -/
theorem c3_counterexample :
    entNoCanon.canonical_form = none ∧
    isComplex entNoCanon = true ∧
    runStage2 false false orcEmptyDef [entNoCanon] [] =
      ([Ev.chatBulk 2 ["ljubav"]], .ok ([entNoCanon], [])) := by
  refine ⟨rfl, rfl, by decide⟩

/-- C3, amended: Stage 5 excludes an entity lacking canonical_form outright,
for every force and test mode combination; the Stage 1 skip check is keyed
by the original spelling alone; but Stages 2 to 4 do not exclude such an
entity: their filters always select it, because the null keyed lookup never
finds a stored status. -/
theorem c3_amended_identity_keys :
    (∀ (f t : Bool) (db : Db) (e : WordEntry), e.canonical_form = none →
      stage5Select f t db e = false) ∧
    (∀ (f t : Bool) (db : Db) (e1 e2 : WordEntry), e1.original = e2.original →
      stage1Select f t db e1 = stage1Select f t db e2) ∧
    (∀ (f t : Bool) (db : Db) (e : WordEntry), e.canonical_form = none →
      stage2Select f t db e = true ∧ stage3Select f t db e = true ∧
        stage4Select f t db e = true) := by
  refine ⟨fun f t db e h => ?_, fun f t db e1 e2 h => ?_, fun f t db e h => ?_⟩
  · simp [stage5Select, h]
  · simp [stage1Select, h]
  · refine ⟨?_, ?_, ?_⟩ <;>
      simp [stage2Select, stage3Select, stage4Select, h, get_word_status_none]

/-- Witness for c3_amended_identity_keys at a concrete entity. -/
theorem c3_amended_identity_keys_witness :
    entNoCanon.canonical_form = none ∧
    stage5Select true true [] entNoCanon = false ∧
    stage2Select false false [] entNoCanon = true :=
  ⟨rfl, c3_amended_identity_keys.1 true true [] entNoCanon rfl,
   (c3_amended_identity_keys.2.2 false false [] entNoCanon rfl).1⟩

/-- Helper: the Stage 2 to 4 filters select every entity whose canonical
form is absent. -/
theorem c3AuxSelects (f t : Bool) (db : Db) (e : WordEntry)
    (h : e.canonical_form = none) :
    stage2Select f t db e = true ∧ stage3Select f t db e = true ∧
      stage4Select f t db e = true := by
  refine ⟨?_, ?_, ?_⟩ <;>
    simp [stage2Select, stage3Select, stage4Select, h, get_word_status_none]

/-- C10: when a Stage 1 response item matches a selected entry but carries no
canonical_form, the merge still assigns all four metadata fields, the entry
keeps canonical_form none, and the database write succeeds under the null key
(the model of the SQLite NULL primary key row): it prepends an invisible row
that no later lookup can find, raising no error; and whenever the assigned
word_type is COMPLEX the entry passes the Stage 2 to 4 gates and filters. -/
theorem c10_null_key_metadata_persist :
    ∀ (l l' : List (WordEntry × Bool)) (db : Db) (item : MetaItem) (e1 : WordEntry),
      item.canonical_form = none →
      mergeFirst (fun e => item.word == some e.original) (apply1 item) l = (some e1, l') →
      e1.canonical_form = none ∧
      e1.part_of_speech = item.part_of_speech ∧
      e1.word_type = item.word_type ∧
      e1.translation = item.translation ∧
      stage1Item false item (l, db) = (l', (none, { metadata := true }) :: db) ∧
      (∀ k, get_word_status ((none, { metadata := true }) :: db) k =
        get_word_status db k) ∧
      (item.word_type = some "COMPLEX" →
        isComplex e1 = true ∧
        ∀ (f t : Bool) (db2 : Db),
          stage2Select f t db2 e1 = true ∧ stage3Select f t db2 e1 = true ∧
            stage4Select f t db2 e1 = true) := by
  intro l l' db item e1 hc hm
  obtain ⟨e, _, rfl⟩ := mergeFirst_fst_some _ _ l e1 (by rw [hm])
  have hfields : (apply1 item e).canonical_form = item.canonical_form ∧
      (apply1 item e).part_of_speech = item.part_of_speech ∧
      (apply1 item e).word_type = item.word_type ∧
      (apply1 item e).translation = item.translation := ⟨rfl, rfl, rfl, rfl⟩
  have hcanon : (apply1 item e).canonical_form = none := by rw [hfields.1, hc]
  refine ⟨hcanon, hfields.2.1, hfields.2.2.1, hfields.2.2.2, ?_, ?_, ?_⟩
  · unfold stage1Item
    rw [hm]
    simp only [if_false, Bool.false_eq_true]
    rw [hcanon, update_word_status_none]
  · intro k
    exact get_word_status_cons_none db _ k
  · intro hw
    refine ⟨?_, fun f t db2 => ?_⟩
    · simp [isComplex, hfields.2.2.1, hw]
    · exact (c3AuxSelects f t db2 _ hcanon)


/-- Witness for c10_null_key_metadata_persist at a concrete item and entry. -/
theorem c10_null_key_metadata_persist_witness :
    itemXComplex.canonical_form = none ∧
    mergeFirst (fun e => itemXComplex.word == some e.original) (apply1 itemXComplex)
        [(entFreshX, true)] =
      (some (apply1 itemXComplex entFreshX), [(apply1 itemXComplex entFreshX, true)]) ∧
    stage1Item false itemXComplex ([(entFreshX, true)], []) =
      ([(apply1 itemXComplex entFreshX, true)], [(none, { metadata := true })]) :=
  ⟨rfl, by decide,
   (c10_null_key_metadata_persist [(entFreshX, true)]
      [(apply1 itemXComplex entFreshX, true)] [] itemXComplex
      (apply1 itemXComplex entFreshX) rfl (by decide)).2.2.2.2.1⟩

theorem mergeFirst_none (hits : WordEntry → Bool) (upd : WordEntry → WordEntry) :
    ∀ l, (∀ p ∈ l, ¬(p.2 = true ∧ hits p.1 = true)) →
      mergeFirst hits upd l = (none, l) := by
  intro l
  induction l with
  | nil => intro _; rfl
  | cons p rest ih =>
    intro h
    obtain ⟨e, s⟩ := p
    have hp := h (e, s) (List.mem_cons_self ..)
    have hc : (s && hits e) = false := by
      cases s <;> cases hhits : hits e <;> simp_all
    simp only [mergeFirst, hc, Bool.false_eq_true, if_false]
    rw [ih (fun q hq => h q (List.mem_cons_of_mem _ hq))]

theorem mergeFirst_first (hits : WordEntry → Bool) (upd : WordEntry → WordEntry) :
    ∀ (l1 : List (WordEntry × Bool)) (e : WordEntry) (l2 : List (WordEntry × Bool)),
      (∀ p ∈ l1, ¬(p.2 = true ∧ hits p.1 = true)) → hits e = true →
      mergeFirst hits upd (l1 ++ (e, true) :: l2) =
        (some (upd e), l1 ++ (upd e, true) :: l2) := by
  intro l1
  induction l1 with
  | nil =>
    intro e l2 _ he
    simp [mergeFirst, he]
  | cons p rest ih =>
    intro e l2 h he
    obtain ⟨e1, s1⟩ := p
    have hp := h (e1, s1) (List.mem_cons_self ..)
    have hc : (s1 && hits e1) = false := by
      cases s1 <;> cases hhits : hits e1 <;> simp_all
    simp only [List.cons_append, mergeFirst, hc, Bool.false_eq_true, if_false,
      List.append_eq]
    rw [ih e l2 (fun q hq => h q (List.mem_cons_of_mem _ hq)) he]

theorem mergeFirst_get?_of_not_hit (hits : WordEntry → Bool) (upd : WordEntry → WordEntry) :
    ∀ (l : List (WordEntry × Bool)) (i : Nat) (e : WordEntry) (s : Bool),
      l[i]? = some (e, s) → hits e = false →
      (mergeFirst hits upd l).2[i]? = some (e, s) := by
  intro l
  induction l with
  | nil => intro i e s h _; simp at h
  | cons p rest ih =>
    intro i e s h hhit
    obtain ⟨e1, s1⟩ := p
    by_cases hc : (s1 && hits e1) = true
    · cases i with
      | zero =>
        rw [List.getElem?_cons_zero] at h
        obtain ⟨h1, h2⟩ := Prod.mk.injEq .. ▸ Option.some.inj h
        subst h1
        rw [(Bool.and_eq_true ..).mp hc |>.2] at hhit
        exact absurd hhit (by simp)
      | succ n =>
        rw [List.getElem?_cons_succ] at h
        simp only [mergeFirst, hc, if_true]
        rw [List.getElem?_cons_succ]
        exact h
    · have hc' : (s1 && hits e1) = false := by simpa using hc
      simp only [mergeFirst, hc', Bool.false_eq_true, if_false]
      cases i with
      | zero =>
        rw [List.getElem?_cons_zero] at h ⊢
        exact h
      | succ n =>
        rw [List.getElem?_cons_succ] at h ⊢
        exact ih n e s h hhit

theorem stage1Item_fst (tm : Bool) (item : MetaItem) (l : List (WordEntry × Bool))
    (db : Db) :
    (stage1Item tm item (l, db)).1 =
      (mergeFirst (fun e => item.word == some e.original) (apply1 item) l).2 := by
  unfold stage1Item
  rcases hm : mergeFirst (fun e => item.word == some e.original) (apply1 item) l
    with ⟨res, l'⟩
  cases res with
  | none => simp
  | some e1 => by_cases htm : tm = true <;> simp [htm]

theorem stage1Fold_get?_of_no_match (tm : Bool) :
    ∀ (items : List MetaItem) (l : List (WordEntry × Bool)) (db : Db)
      (i : Nat) (e : WordEntry) (s : Bool),
      l[i]? = some (e, s) →
      (∀ item ∈ items, item.word ≠ some e.original) →
      ((items.foldl (fun st item => stage1Item tm item st) (l, db)).1)[i]? =
        some (e, s) := by
  intro items
  induction items with
  | nil => intro l db i e s h _; simpa using h
  | cons item rest ih =>
    intro l db i e s h hni
    rw [List.foldl_cons]
    have hhit : (item.word == some e.original) = false := by
      have := hni item (List.mem_cons_self ..)
      simpa using this
    have hstep : (stage1Item tm item (l, db)).1[i]? = some (e, s) := by
      rw [stage1Item_fst]
      exact mergeFirst_get?_of_not_hit _ _ l i e s h hhit
    have hsplit : stage1Item tm item (l, db) =
        ((stage1Item tm item (l, db)).1, (stage1Item tm item (l, db)).2) := rfl
    rw [hsplit]
    exact ih _ _ i e s hstep (fun it hit => hni it (List.mem_cons_of_mem _ hit))

/-- C4: the Stage 1 response merge scans the selected entries for the first
one whose original equals the item word tag: an item matching no selected
entry leaves entries and store untouched (silently ignored, no error); an
item with a match is merged onto the first matching selected entry only; and
an entry matched by no item of the response keeps its position and value
unmodified through the whole merge fold, so it stays eligible for the next
run. -/
theorem c4_response_merge :
    (∀ (tm : Bool) (item : MetaItem) (l : List (WordEntry × Bool)) (db : Db),
      (∀ p ∈ l, ¬(p.2 = true ∧ item.word = some p.1.original)) →
      stage1Item tm item (l, db) = (l, db)) ∧
    (∀ (tm : Bool) (item : MetaItem) (l1 l2 : List (WordEntry × Bool))
       (e : WordEntry) (db : Db),
      (∀ p ∈ l1, ¬(p.2 = true ∧ item.word = some p.1.original)) →
      item.word = some e.original →
      (stage1Item tm item (l1 ++ (e, true) :: l2, db)).1 =
        l1 ++ (apply1 item e, true) :: l2) ∧
    (∀ (tm : Bool) (items : List MetaItem) (l : List (WordEntry × Bool)) (db : Db)
       (i : Nat) (e : WordEntry) (s : Bool),
      l[i]? = some (e, s) →
      (∀ item ∈ items, item.word ≠ some e.original) →
      ((items.foldl (fun st item => stage1Item tm item st) (l, db)).1)[i]? =
        some (e, s)) := by
  refine ⟨fun tm item l db h => ?_, fun tm item l1 l2 e db h he => ?_,
    fun tm items l db i e s h hni => stage1Fold_get?_of_no_match tm items l db i e s h hni⟩
  · have hm := mergeFirst_none (fun e => item.word == some e.original) (apply1 item) l
      (fun p hp => by have := h p hp; simpa using this)
    unfold stage1Item
    rw [hm]
  · have hm := mergeFirst_first (fun e => item.word == some e.original) (apply1 item)
      l1 e l2 (fun p hp => by have := h p hp; simpa using this) (by simp [he])
    rw [stage1Item_fst, hm]

/-- Witness for c4_response_merge merging one item onto one entry. -/
theorem c4_response_merge_witness :
    itemXComplex.word = some entFreshX.original ∧
    (stage1Item false itemXComplex ([] ++ (entFreshX, true) :: [], [])).1 =
      [] ++ (apply1 itemXComplex entFreshX, true) :: [] :=
  ⟨rfl, c4_response_merge.2.1 false itemXComplex [] [] entFreshX []
    (by simp) rfl⟩

/-- C6, counterexample: a failed image download inside the stock photo path
does not propagate: the download loop catches it, the item completes with an
empty file list, Stage 5 returns successfully and nothing aborts. -/
theorem c6_counterexample :
    orcDownloadFails.downloadResp "http1" = .error "connection reset" ∧
    runStage5 false false orcDownloadFails [entSimplePas] [] =
      ([Ev.pexelsSearch "pas" "dog", Ev.downloadImg "pas" "http1"],
       .ok ([{ entSimplePas with image_files := some [] }], [])) := by
  refine ⟨rfl, by decide⟩

/-- C6, amended: per item failures in Stage 4 (the prompt chat call) and in
Stage 5 (stock photo search, image generation, and any processed item whose
branch raises) propagate and abort the stage; the one exception is a failed
image download inside the stock photo path, which is caught so that the item
always completes once its search succeeded. -/
theorem c6_amended_failure_policy :
    (∀ (tm : Bool) (orc : Oracles) (l : List (WordEntry × Bool)) (db : Db)
       (t : List Ev) (r : List WordEntry × Db),
      stage4Go tm orc l db = (t, .ok r) →
      ∀ p ∈ l, p.2 = true → ∃ resp, orc.promptResp p.1 = .ok resp) ∧
    (∀ (orc : Oracles) (e : WordEntry) (p cf : String) (m : Err),
      e.image_prompt = some p → e.canonical_form = some cf →
      orc.genImageResp p = .error m →
      (generateDalleImage orc e).2 =
        .error ("Image generation failed for " ++ e.original ++ ": " ++ m)) ∧
    (∀ (orc : Oracles) (e : WordEntry) (tr cf : String) (m : Err),
      e.translation = some tr → e.canonical_form = some cf →
      orc.pexelsResp tr = .error m → (fetchPexelsImages orc e).2 = .error m) ∧
    (∀ (orc : Oracles) (e : WordEntry) (tr cf : String) (urls : List String),
      e.translation = some tr → e.canonical_form = some cf →
      orc.pexelsResp tr = .ok urls →
      ∃ e1, (fetchPexelsImages orc e).2 = .ok e1) ∧
    (∀ (f tm : Bool) (orc : Oracles) (e : WordEntry)
       (rest : List (WordEntry × Bool)) (db : Db) (evs : List Ev) (m : Err),
      e.canonical_form.isNone = false →
      (!tm && !f && statusImageGen (get_word_status db e.canonical_form)) = false →
      stage5ProcessItem orc e = (evs, .error m) →
      stage5Go f tm orc ((e, true) :: rest) db = (evs, .error m)) := by
  refine ⟨?_, ?_, ?_, ?_, ?_⟩
  · intro tm orc l
    induction l with
    | nil => intro db t r _ p hp; simp at hp
    | cons q rest ih =>
      intro db t r h p hp
      obtain ⟨e, s⟩ := q
      by_cases hs : s = true
      · subst hs
        rcases hresp : orc.promptResp e with m | resp
        · simp only [stage4Go, hresp, if_true] at h
          obtain ⟨-, h2⟩ := Prod.mk.injEq .. ▸ h
          exact absurd h2 (by simp)
        · simp only [stage4Go, hresp, if_true] at h
          rcases hrest : stage4Go tm orc rest
              (if tm = true then db
               else stage4WriteBack db
                 ({ e with image_prompt := some (pyStrip resp) }).canonical_form)
            with ⟨evs, res⟩
          rw [hrest] at h
          cases res with
          | error err =>
            obtain ⟨-, h2⟩ := Prod.mk.injEq .. ▸ h
            exact absurd h2 (by simp)
          | ok r2 =>
            rcases List.mem_cons.mp hp with rfl | hp2
            · exact fun _ => ⟨resp, hresp⟩
            · exact fun hps => ih _ _ _ hrest p hp2 hps
      · have hs' : s = false := by simpa using hs
        subst hs'
        simp only [stage4Go] at h
        rcases hrest : stage4Go tm orc rest db with ⟨evs, res⟩
        rw [hrest] at h
        cases res with
        | error err =>
          obtain ⟨-, h2⟩ := Prod.mk.injEq .. ▸ h
          exact absurd h2 (by simp)
        | ok r2 =>
          rcases List.mem_cons.mp hp with rfl | hp2
          · exact fun hfalse => absurd hfalse (by simp)
          · exact fun hps => ih _ _ _ hrest p hp2 hps
  · intro orc e p cf m hp hcf hgen
    simp [generateDalleImage, hp, hcf, hgen]
  · intro orc e tr cf m htr hcf hpex
    simp [fetchPexelsImages, htr, hcf, hpex]
  · intro orc e tr cf urls htr hcf hpex
    by_cases hu : urls.isEmpty = true
    · exact ⟨e, by simp [fetchPexelsImages, htr, hcf, hpex, hu]⟩
    · refine ⟨{ e with image_files := some (downloadLoop orc e.original cf urls 0).1 }, ?_⟩
      simp [fetchPexelsImages, htr, hcf, hpex, hu]
  · intro f tm orc e rest db evs m h1 h2 h3
    simp [stage5Go, h1, h2, h3]

/-- Witness for c6_amended_failure_policy: a failing image generation aborts
the item with the wrapped message. -/
theorem c6_amended_failure_policy_witness :
    entComplexPrompt.image_prompt = some "a heart" ∧
    entComplexPrompt.canonical_form = some "ljubav" ∧
    orcGenFails.genImageResp "a heart" = .error "boom" ∧
    (generateDalleImage orcGenFails entComplexPrompt).2 =
      .error ("Image generation failed for " ++ "ljubav" ++ ": " ++ "boom") :=
  ⟨rfl, rfl, rfl,
   c6_amended_failure_policy.2.1 orcGenFails entComplexPrompt "a heart" "ljubav"
     "boom" rfl rfl rfl⟩

theorem downloadLoop_ev (orc : Oracles) (w cf : String) :
    ∀ (urls : List String) (i : Nat) (ev : Ev),
      ev ∈ (downloadLoop orc w cf urls i).2 → ∃ url, ev = .downloadImg w url := by
  intro urls
  induction urls with
  | nil => intro i ev h; simp [downloadLoop] at h
  | cons url rest ih =>
    intro i ev h
    cases hd : orc.downloadResp url with
    | error m =>
      simp only [downloadLoop, hd, List.mem_cons] at h
      rcases h with rfl | h2
      · exact ⟨url, rfl⟩
      · exact ih (i + 1) ev h2
    | ok u =>
      simp only [downloadLoop, hd, List.mem_cons] at h
      rcases h with rfl | h2
      · exact ⟨url, rfl⟩
      · exact ih (i + 1) ev h2

theorem stage5ProcessItem_ev (orc : Oracles) (e : WordEntry) (ev : Ev)
    (h : ev ∈ (stage5ProcessItem orc e).1) :
    isSleepEv ev = false ∧ (∀ w, evMentions w ev = true → e.original = w) ∧
    (e.word_type = some "SIMPLE" → isStockEv ev = true) ∧
    (e.word_type ≠ some "SIMPLE" → isGenEv ev = true) := by
  unfold stage5ProcessItem at h
  by_cases hw : (e.word_type == some "SIMPLE") = true
  · rw [if_pos hw] at h
    have hwt : e.word_type = some "SIMPLE" := by simpa using hw
    unfold fetchPexelsImages at h
    rcases htr : e.translation with _ | tr <;> rw [htr] at h <;> dsimp only at h
    · simp at h
    rcases hcf : e.canonical_form with _ | cf <;> rw [hcf] at h <;> dsimp only at h
    · simp at h
    rcases hpx : orc.pexelsResp tr with m | urls <;> rw [hpx] at h <;> dsimp only at h
    · rw [List.mem_singleton] at h
      subst h
      exact ⟨rfl, fun w hm => by simpa [evMentions] using hm, fun _ => rfl,
        fun hne => absurd hwt hne⟩
    · by_cases hu : urls.isEmpty = true
      · rw [if_pos hu, List.mem_singleton] at h
        subst h
        exact ⟨rfl, fun w hm => by simpa [evMentions] using hm, fun _ => rfl,
          fun hne => absurd hwt hne⟩
      · rw [if_neg hu] at h
        dsimp only at h
        rw [List.mem_cons] at h
        rcases h with rfl | h2
        · exact ⟨rfl, fun w hm => by simpa [evMentions] using hm, fun _ => rfl,
            fun hne => absurd hwt hne⟩
        · obtain ⟨url, rfl⟩ := downloadLoop_ev orc e.original cf urls 0 ev h2
          exact ⟨rfl, fun w hm => by simpa [evMentions] using hm, fun _ => rfl,
            fun hne => absurd hwt hne⟩
  · rw [if_neg hw] at h
    have hwt : ¬ e.word_type = some "SIMPLE" := by simpa using hw
    unfold generateDalleImage at h
    rcases hip : e.image_prompt with _ | p <;> rw [hip] at h <;> dsimp only at h
    · simp at h
    rcases hcf : e.canonical_form with _ | cf <;> rw [hcf] at h <;> dsimp only at h
    · simp at h
    rcases hg : orc.genImageResp p with m | b <;> rw [hg] at h <;> dsimp only at h <;>
      rw [List.mem_singleton] at h <;> subst h <;>
      exact ⟨rfl, fun w hm => by simpa [evMentions] using hm, fun hS => absurd hS hwt,
        fun _ => rfl⟩

theorem stage5ProcessItem_fields (orc : Oracles) (e : WordEntry) (evs : List Ev)
    (e1 : WordEntry) (h : stage5ProcessItem orc e = (evs, .ok e1)) :
    e1.original = e.original ∧ e1.canonical_form = e.canonical_form ∧
    e1.word_type = e.word_type ∧ e1.translation = e.translation ∧
    e1.definition = e.definition ∧ e1.example_sentences = e.example_sentences ∧
    e1.image_prompt = e.image_prompt := by
  unfold stage5ProcessItem fetchPexelsImages generateDalleImage at h
  repeat' split at h
  all_goals simp only [Prod.mk.injEq] at h
  all_goals obtain ⟨-, h2⟩ := h
  all_goals first
    | (obtain rfl := Except.ok.inj h2
       exact ⟨rfl, rfl, rfl, rfl, rfl, rfl, rfl⟩)
    | exact absurd h2 (by simp)

theorem get_writeBack5_ne {k2 k : Option String} (h : sqlEq k2 k = false)
    (db : Db) : get_word_status (stage5WriteBack db k2) k = get_word_status db k := by
  unfold stage5WriteBack
  exact get_update_ne h db _

theorem stage5Go_pacing (f tm : Bool) (orc : Oracles) :
    ∀ (l : List (WordEntry × Bool)) (db : Db),
      (∀ p ∈ l, p.2 = true → p.1.canonical_form.isSome = true) →
      (∀ p ∈ l, p.2 = true →
        (!tm && !f && statusImageGen (get_word_status db p.1.canonical_form)) = false) →
      (∀ p ∈ l, p.2 = true →
        ∃ evs e1, stage5ProcessItem orc p.1 = (evs, .ok e1) ∧ evs ≠ []) →
      ((l.filter (fun p => p.2)).map (fun p => p.1.canonical_form)).Nodup →
      ∀ t r, stage5Go f tm orc l db = (t, r) →
        (∃ res, r = .ok res) ∧
        t.countP isSleepEv = l.countP (fun p => p.2) - 1 ∧
        (∀ ev ∈ t, isSleepEv ev = true → ev = Ev.sleep 3) ∧
        (l.countP (fun p => p.2) = 0 → t = []) ∧
        (1 ≤ l.countP (fun p => p.2) → t ≠ [] ∧
          ∀ ev, t.getLast? = some ev → isSleepEv ev = false) := by
  intro l
  induction l with
  | nil =>
    intro db _ _ _ _ t r h
    simp only [stage5Go] at h
    obtain ⟨ht, hr⟩ := Prod.mk.injEq .. ▸ h
    subst ht
    refine ⟨⟨([], db), hr.symm⟩, by simp, by simp, fun _ => rfl, fun hc => ?_⟩
    simp at hc
  | cons q rest ih =>
    intro db h1 h2 h3 hnd t r h
    obtain ⟨e, s⟩ := q
    have h1t := fun p hp => h1 p (List.mem_cons_of_mem _ hp)
    have h3t := fun p hp => h3 p (List.mem_cons_of_mem _ hp)
    by_cases hs : s = true
    · subst hs
      have hcanon : e.canonical_form.isSome = true :=
        h1 (e, true) (List.mem_cons_self ..) rfl
      obtain ⟨c, hc⟩ := Option.isSome_iff_exists.mp hcanon
      have hnn : e.canonical_form.isNone = false := by simp [hc]
      have hrchk : (!tm && !f &&
          statusImageGen (get_word_status db e.canonical_form)) = false :=
        h2 (e, true) (List.mem_cons_self ..) rfl
      obtain ⟨evs, e1, hproc, hevs⟩ :
          ∃ evs e1, stage5ProcessItem orc e = (evs, .ok e1) ∧ evs ≠ [] :=
        h3 (e, true) (List.mem_cons_self ..) rfl
      have hnosleep : ∀ ev ∈ evs, isSleepEv ev = false := fun ev hev =>
        (stage5ProcessItem_ev orc e ev (by rw [hproc]; exact hev)).1
      have hnd' : ((rest.filter (fun p => p.2)).map
          (fun p => p.1.canonical_form)).Nodup := by
        rw [List.filter_cons] at hnd
        simp only [if_true] at hnd
        rw [List.map_cons, List.nodup_cons] at hnd
        exact hnd.2
      have hnm : e.canonical_form ∉
          (rest.filter (fun p => p.2)).map (fun p => p.1.canonical_form) := by
        rw [List.filter_cons] at hnd
        simp only [if_true] at hnd
        rw [List.map_cons, List.nodup_cons] at hnd
        exact hnd.1
      have he1c : e1.canonical_form = e.canonical_form :=
        (stage5ProcessItem_fields orc e evs e1 hproc).2.1
      have h2t : ∀ p ∈ rest, p.2 = true →
          (!tm && !f && statusImageGen (get_word_status
            (if imageFilesNonempty e1 && !tm
             then stage5WriteBack db e1.canonical_form else db)
            p.1.canonical_form)) = false := by
        intro p hp hpsel
        by_cases hw : (imageFilesNonempty e1 && !tm) = true
        · rw [if_pos hw]
          have hne : sqlEq e1.canonical_form p.1.canonical_form = false := by
            obtain ⟨c2, hc2⟩ := Option.isSome_iff_exists.mp (h1t p hp hpsel)
            rw [he1c, hc, hc2]
            have hmem : p.1.canonical_form ∈
                (rest.filter (fun p => p.2)).map (fun p => p.1.canonical_form) :=
              List.mem_map.mpr ⟨p, List.mem_filter.mpr ⟨hp, hpsel⟩, rfl⟩
            have hnee : ¬ (some c : Option String) = some c2 := by
              intro hcc
              rw [hc2, ← hcc, ← hc] at hmem
              exact hnm hmem
            simp only [sqlEq]
            simpa using fun hcc => hnee (by rw [hcc])
          rw [get_writeBack5_ne hne]
          exact h2 p (List.mem_cons_of_mem _ hp) hpsel
        · rw [if_neg hw]
          exact h2 p (List.mem_cons_of_mem _ hp) hpsel
      simp only [stage5Go, Bool.not_true, Bool.false_eq_true, if_false, hnn,
        hrchk, hproc] at h
      rcases hrest : stage5Go f tm orc rest
          (if imageFilesNonempty e1 && !tm
           then stage5WriteBack db e1.canonical_form else db) with ⟨t2, r2⟩
      rw [hrest] at h
      have IH := ih _ h1t h2t h3t hnd' t2 r2 hrest
      obtain ⟨⟨res2, hres2⟩, IHcount, IHonly3, IHzero, IHlast⟩ := IH
      subst hres2
      rcases res2 with ⟨l2, db2⟩
      obtain ⟨ht, hr⟩ := Prod.mk.injEq .. ▸ h
      subst ht
      have hcnt : ((e, true) :: rest).countP (fun p => p.2) =
          rest.countP (fun p => p.2) + 1 := by
        rw [List.countP_cons]
        simp
      have hevs0 : evs.countP isSleepEv = 0 :=
        List.countP_eq_zero.mpr (fun ev hev => by simp [hnosleep ev hev])
      by_cases hany : rest.any (fun p => p.2) = true
      · have hpos : 0 < rest.countP (fun p => p.2) := by
          rw [List.countP_pos_iff]
          exact List.any_eq_true.mp hany
        simp only [hany, if_true] at *
        refine ⟨⟨(e1 :: l2, db2), hr.symm⟩, ?_, ?_, ?_, ?_⟩
        · rw [List.countP_append, List.countP_append, hevs0, hcnt, IHcount]
          have : List.countP isSleepEv [Ev.sleep 3] = 1 := by decide
          rw [this]
          omega
        · intro ev hev hsl
          rcases List.mem_append.mp hev with hev1 | hev2
          · rcases List.mem_append.mp hev1 with hev3 | hev4
            · exact absurd hsl (by simp [hnosleep ev hev3])
            · simpa using hev4
          · exact IHonly3 ev hev2 hsl
        · intro hzero
          rw [hcnt] at hzero
          omega
        · intro _
          obtain ⟨ht2ne, ht2last⟩ := IHlast hpos
          constructor
          · intro hfalse
            rcases List.append_eq_nil.mp (List.append_eq_nil.mp hfalse).1 with ⟨he, -⟩
            exact hevs he
          · intro ev hlastev
            rw [List.getLast?_append] at hlastev
            have ht2some : t2.getLast?.isSome = true := by
              rcases t2 with _ | ⟨x, xs⟩
              · exact absurd rfl ht2ne
              · simp [List.getLast?]
            obtain ⟨a, ha⟩ := Option.isSome_iff_exists.mp ht2some
            rw [List.getLast?_append, ha] at hlastev
            simp only [Option.or_some] at hlastev
            obtain rfl := Option.some.inj hlastev
            exact ht2last a ha
      · have hzero2 : rest.countP (fun p => p.2) = 0 := by
          by_contra hpos
          have hgt : 0 < rest.countP (fun p => p.2) := Nat.pos_of_ne_zero hpos
          rw [List.countP_pos_iff] at hgt
          exact hany (List.any_eq_true.mpr hgt)
        have ht2nil : t2 = [] := IHzero hzero2
        subst ht2nil
        simp only [Bool.not_eq_true] at hany
        simp only [hany, Bool.false_eq_true, if_false, List.append_nil]
        refine ⟨⟨(e1 :: l2, db2), hr.symm⟩, ?_, ?_, ?_, ?_⟩
        · rw [hcnt, hzero2, hevs0]
        · intro ev hev hsl
          exact absurd hsl (by simp [hnosleep ev hev])
        · intro hzero
          rw [hcnt] at hzero
          omega
        · intro _
          refine ⟨hevs, ?_⟩
          intro ev hlastev
          have hmem := List.mem_of_mem_getLast? hlastev
          simp [hnosleep ev hmem]
    · have hs' : s = false := by simpa using hs
      subst hs'
      simp only [stage5Go, Bool.not_false, if_true] at h
      rcases hrest : stage5Go f tm orc rest db with ⟨t2, r2⟩
      rw [hrest] at h
      have h2t := fun p hp => h2 p (List.mem_cons_of_mem _ hp)
      have hnd' : ((rest.filter (fun p => p.2)).map
          (fun p => p.1.canonical_form)).Nodup := by
        rw [List.filter_cons] at hnd
        simpa using hnd
      have IH := ih db h1t h2t h3t hnd' t2 r2 hrest
      obtain ⟨⟨res2, hres2⟩, IHcount, IHonly3, IHzero, IHlast⟩ := IH
      subst hres2
      rcases res2 with ⟨l2, db2⟩
      obtain ⟨ht, hr⟩ := Prod.mk.injEq .. ▸ h
      subst ht
      have hcnt : ((e, false) :: rest).countP (fun p => p.2) =
          rest.countP (fun p => p.2) := by
        rw [List.countP_cons]
        simp
      rw [hcnt]
      exact ⟨⟨(e :: l2, db2), hr.symm⟩, IHcount, IHonly3, IHzero, IHlast⟩

theorem flagged_filter_map (sel : WordEntry → Bool) (g : WordEntry → Option String) :
    ∀ (entries : List WordEntry),
      (((entries.map (fun e => (e, sel e))).filter (fun p => p.2)).map
        (fun p => g p.1)) = (entries.filter sel).map g := by
  intro entries
  induction entries with
  | nil => rfl
  | cons e rest ih =>
    simp only [List.map_cons, List.filter_cons]
    by_cases hs : sel e = true
    · simp only [hs, if_true, List.map_cons, ih]
    · simp only [Bool.not_eq_true] at hs
      simp only [hs, Bool.false_eq_true, if_false, ih]

/-- C7: a Stage 5 run whose selected entries have pairwise distinct canonical
forms and all succeed with at least one external call each issues exactly one
3 second pause between consecutive selected items: the pause count is the
selected count minus one, every pause is 3 seconds, and no pause trails the
final item (the source loop is sequential, so items are processed one at a
time in list order). -/
theorem c7_stage5_pacing :
    ∀ (force test_mode : Bool) (orc : Oracles) (entries : List WordEntry) (db : Db),
      ((entries.filter (stage5Select force test_mode db)).map
        (fun e => e.canonical_form)).Nodup →
      (∀ e ∈ entries, stage5Select force test_mode db e = true →
        ∃ evs e1, stage5ProcessItem orc e = (evs, .ok e1) ∧ evs ≠ []) →
      ∀ t r, runStage5 force test_mode orc entries db = (t, r) →
        (∃ res, r = .ok res) ∧
        t.countP isSleepEv = entries.countP (stage5Select force test_mode db) - 1 ∧
        (∀ ev ∈ t, isSleepEv ev = true → ev = Ev.sleep 3) ∧
        (∀ ev, t.getLast? = some ev → isSleepEv ev = false) := by
  intro f tm orc entries db hnd hsucc t r h
  unfold runStage5 at h
  have h1 : ∀ p ∈ entries.map (fun e => (e, stage5Select f tm db e)),
      p.2 = true → p.1.canonical_form.isSome = true := by
    intro p hp hpsel
    obtain ⟨e, he, rfl⟩ := List.mem_map.mp hp
    have : stage5Select f tm db e = true := hpsel
    unfold stage5Select at this
    exact (Bool.and_eq_true ..).mp this |>.1
  have h2 : ∀ p ∈ entries.map (fun e => (e, stage5Select f tm db e)),
      p.2 = true →
      (!tm && !f && statusImageGen (get_word_status db p.1.canonical_form)) = false := by
    intro p hp hpsel
    obtain ⟨e, he, rfl⟩ := List.mem_map.mp hp
    have hsel : stage5Select f tm db e = true := hpsel
    unfold stage5Select at hsel
    have hb := (Bool.and_eq_true ..).mp hsel |>.2
    cases hX : (!tm && !f && statusImageGen (get_word_status db e.canonical_form)) with
    | false => rfl
    | true => rw [hX] at hb; exact absurd hb (by simp)
  have h3 : ∀ p ∈ entries.map (fun e => (e, stage5Select f tm db e)),
      p.2 = true →
      ∃ evs e1, stage5ProcessItem orc p.1 = (evs, .ok e1) ∧ evs ≠ [] := by
    intro p hp hpsel
    obtain ⟨e, he, rfl⟩ := List.mem_map.mp hp
    exact hsucc e he hpsel
  have hnd2 : (((entries.map (fun e => (e, stage5Select f tm db e))).filter
      (fun p => p.2)).map (fun p => p.1.canonical_form)).Nodup := by
    rw [flagged_filter_map (stage5Select f tm db) (fun e => e.canonical_form) entries]
    exact hnd
  have hres := stage5Go_pacing f tm orc
    (entries.map (fun e => (e, stage5Select f tm db e))) db h1 h2 h3 hnd2 t r h
  have hcnteq : (entries.map (fun e => (e, stage5Select f tm db e))).countP
      (fun p => p.2) = entries.countP (stage5Select f tm db) := by
    rw [List.countP_map]
    rfl
  obtain ⟨hok, hcount, honly3, hzero, hlast⟩ := hres
  rw [hcnteq] at hcount hzero hlast
  refine ⟨hok, hcount, honly3, ?_⟩
  intro ev hlastev
  by_cases hc : 1 ≤ entries.countP (stage5Select f tm db)
  · exact (hlast hc).2 ev hlastev
  · have : entries.countP (stage5Select f tm db) = 0 := by omega
    rw [hzero this] at hlastev
    simp at hlastev

/-- Witness for c7_stage5_pacing: three selected SIMPLE words yield exactly
two pauses. -/
theorem c7_stage5_pacing_witness :
    (([entPace1, entPace2, entPace3].filter (stage5Select false false [])).map
      (fun e => e.canonical_form)).Nodup ∧
    (runStage5 false false orcPexelsOk [entPace1, entPace2, entPace3] []).1.countP
      isSleepEv = 3 - 1 := by
  refine ⟨by decide, ?_⟩
  have h := c7_stage5_pacing false false orcPexelsOk [entPace1, entPace2, entPace3]
    [] (by decide)
    (by
      intro e he hsel
      fin_cases he <;> exact ⟨_, _, rfl, by decide⟩)
    (runStage5 false false orcPexelsOk [entPace1, entPace2, entPace3] []).1
    (runStage5 false false orcPexelsOk [entPace1, entPace2, entPace3] []).2 rfl
  exact h.2.1.trans (by decide)

/-! Positional shape of the merge fold, shared by Stages 1 to 3. -/

theorem mergeFirst_length (hits : WordEntry → Bool) (upd : WordEntry → WordEntry) :
    ∀ l : List (WordEntry × Bool), ((mergeFirst hits upd l).2).length = l.length := by
  intro l
  induction l with
  | nil => rfl
  | cons p rest ih =>
    obtain ⟨e, s⟩ := p
    by_cases hc : (s && hits e) = true
    · simp only [mergeFirst, hc, if_true, List.length_cons]
    · have hc' : (s && hits e) = false := by simpa using hc
      simp only [mergeFirst, hc', Bool.false_eq_true, if_false, List.length_cons, ih]

theorem mergeFirst_get?_shape (hits : WordEntry → Bool) (upd : WordEntry → WordEntry) :
    ∀ (l : List (WordEntry × Bool)) (i : Nat) (p' : WordEntry × Bool),
      (mergeFirst hits upd l).2[i]? = some p' →
      ∃ p, l[i]? = some p ∧ p'.2 = p.2 ∧
        (p' = p ∨ (p.2 = true ∧ p'.1 = upd p.1)) := by
  intro l
  induction l with
  | nil => intro i p' h; simp [mergeFirst] at h
  | cons q rest ih =>
    intro i p' h
    obtain ⟨e, s⟩ := q
    by_cases hc : (s && hits e) = true
    · simp only [mergeFirst, hc, if_true] at h
      cases i with
      | zero =>
        rw [List.getElem?_cons_zero] at h
        obtain rfl := Option.some.inj h
        exact ⟨(e, s), List.getElem?_cons_zero, rfl, Or.inr ⟨((Bool.and_eq_true ..).mp hc).1, rfl⟩⟩
      | succ n =>
        rw [List.getElem?_cons_succ] at h
        exact ⟨p', by rw [List.getElem?_cons_succ]; exact h, rfl, Or.inl rfl⟩
    · have hc' : (s && hits e) = false := by simpa using hc
      simp only [mergeFirst, hc', Bool.false_eq_true, if_false] at h
      cases i with
      | zero =>
        rw [List.getElem?_cons_zero] at h
        obtain rfl := Option.some.inj h
        exact ⟨(e, s), List.getElem?_cons_zero, rfl, Or.inl rfl⟩
      | succ n =>
        rw [List.getElem?_cons_succ] at h
        obtain ⟨p, hp, hps, hrel⟩ := ih n p' h
        exact ⟨p, by rw [List.getElem?_cons_succ]; exact hp, hps, hrel⟩

theorem apply1_apply1 (i2 i1 : MetaItem) (e : WordEntry) :
    apply1 i2 (apply1 i1 e) = apply1 i2 e := rfl

theorem apply2_apply2 (i2 i1 : DefItem) (e : WordEntry) :
    apply2 i2 (apply2 i1 e) = apply2 i2 e := rfl

theorem apply3_apply3 (i2 i1 : ExItem) (e : WordEntry) :
    apply3 i2 (apply3 i1 e) = apply3 i2 e := rfl

theorem stage2Item_fst (tm : Bool) (item : DefItem) (l : List (WordEntry × Bool))
    (db : Db) :
    (stage2Item tm item (l, db)).1 =
      (mergeFirst (fun e => item.word == some e.original) (apply2 item) l).2 := by
  unfold stage2Item
  rcases hm : mergeFirst (fun e => item.word == some e.original) (apply2 item) l
    with ⟨res, l'⟩
  cases res with
  | none => simp
  | some e1 => by_cases htm : tm = true <;> simp [htm]

theorem stage3Item_fst (tm : Bool) (item : ExItem) (l : List (WordEntry × Bool))
    (db : Db) :
    (stage3Item tm item (l, db)).1 =
      (mergeFirst (fun e => item.word == some e.original) (apply3 item) l).2 := by
  unfold stage3Item
  rcases hm : mergeFirst (fun e => item.word == some e.original) (apply3 item) l
    with ⟨res, l'⟩
  cases res with
  | none => simp
  | some e1 => by_cases htm : tm = true <;> simp [htm]

theorem stage1Fold_get? (tm : Bool) :
    ∀ (items : List MetaItem) (l : List (WordEntry × Bool)) (db : Db) (i : Nat)
      (p' : WordEntry × Bool),
      ((items.foldl (fun st item => stage1Item tm item st) (l, db)).1)[i]? = some p' →
      ∃ p, l[i]? = some p ∧ p'.2 = p.2 ∧
        (p' = p ∨ (p.2 = true ∧ ∃ item ∈ items, p'.1 = apply1 item p.1)) := by
  intro items
  induction items with
  | nil =>
    intro l db i p' h
    exact ⟨p', by simpa using h, rfl, Or.inl rfl⟩
  | cons item rest ih =>
    intro l db i p' h
    rw [List.foldl_cons] at h
    have hsplit : stage1Item tm item (l, db) =
        ((stage1Item tm item (l, db)).1, (stage1Item tm item (l, db)).2) := rfl
    rw [hsplit] at h
    obtain ⟨q, hq, hqs, hqrel⟩ := ih _ _ i p' h
    rw [stage1Item_fst] at hq
    obtain ⟨p, hp, hps, hprel⟩ := mergeFirst_get?_shape _ _ l i q hq
    refine ⟨p, hp, hqs.trans hps, ?_⟩
    rcases hqrel with rfl | ⟨hq2, item', hmem', hup'⟩
    · rcases hprel with rfl | ⟨hp2, hp1⟩
      · exact Or.inl rfl
      · exact Or.inr ⟨hp2, item, List.mem_cons_self .., hp1⟩
    · rcases hprel with rfl | ⟨hp2, hp1⟩
      · exact Or.inr ⟨hq2, item', List.mem_cons_of_mem _ hmem', hup'⟩
      · exact Or.inr ⟨hp2, item', List.mem_cons_of_mem _ hmem',
          by rw [hup', hp1, apply1_apply1]⟩

theorem stage2Fold_get? (tm : Bool) :
    ∀ (items : List DefItem) (l : List (WordEntry × Bool)) (db : Db) (i : Nat)
      (p' : WordEntry × Bool),
      ((items.foldl (fun st item => stage2Item tm item st) (l, db)).1)[i]? = some p' →
      ∃ p, l[i]? = some p ∧ p'.2 = p.2 ∧
        (p' = p ∨ (p.2 = true ∧ ∃ item ∈ items, p'.1 = apply2 item p.1)) := by
  intro items
  induction items with
  | nil =>
    intro l db i p' h
    exact ⟨p', by simpa using h, rfl, Or.inl rfl⟩
  | cons item rest ih =>
    intro l db i p' h
    rw [List.foldl_cons] at h
    have hsplit : stage2Item tm item (l, db) =
        ((stage2Item tm item (l, db)).1, (stage2Item tm item (l, db)).2) := rfl
    rw [hsplit] at h
    obtain ⟨q, hq, hqs, hqrel⟩ := ih _ _ i p' h
    rw [stage2Item_fst] at hq
    obtain ⟨p, hp, hps, hprel⟩ := mergeFirst_get?_shape _ _ l i q hq
    refine ⟨p, hp, hqs.trans hps, ?_⟩
    rcases hqrel with rfl | ⟨hq2, item', hmem', hup'⟩
    · rcases hprel with rfl | ⟨hp2, hp1⟩
      · exact Or.inl rfl
      · exact Or.inr ⟨hp2, item, List.mem_cons_self .., hp1⟩
    · rcases hprel with rfl | ⟨hp2, hp1⟩
      · exact Or.inr ⟨hq2, item', List.mem_cons_of_mem _ hmem', hup'⟩
      · exact Or.inr ⟨hp2, item', List.mem_cons_of_mem _ hmem',
          by rw [hup', hp1, apply2_apply2]⟩

theorem stage3Fold_get? (tm : Bool) :
    ∀ (items : List ExItem) (l : List (WordEntry × Bool)) (db : Db) (i : Nat)
      (p' : WordEntry × Bool),
      ((items.foldl (fun st item => stage3Item tm item st) (l, db)).1)[i]? = some p' →
      ∃ p, l[i]? = some p ∧ p'.2 = p.2 ∧
        (p' = p ∨ (p.2 = true ∧ ∃ item ∈ items, p'.1 = apply3 item p.1)) := by
  intro items
  induction items with
  | nil =>
    intro l db i p' h
    exact ⟨p', by simpa using h, rfl, Or.inl rfl⟩
  | cons item rest ih =>
    intro l db i p' h
    rw [List.foldl_cons] at h
    have hsplit : stage3Item tm item (l, db) =
        ((stage3Item tm item (l, db)).1, (stage3Item tm item (l, db)).2) := rfl
    rw [hsplit] at h
    obtain ⟨q, hq, hqs, hqrel⟩ := ih _ _ i p' h
    rw [stage3Item_fst] at hq
    obtain ⟨p, hp, hps, hprel⟩ := mergeFirst_get?_shape _ _ l i q hq
    refine ⟨p, hp, hqs.trans hps, ?_⟩
    rcases hqrel with rfl | ⟨hq2, item', hmem', hup'⟩
    · rcases hprel with rfl | ⟨hp2, hp1⟩
      · exact Or.inl rfl
      · exact Or.inr ⟨hp2, item, List.mem_cons_self .., hp1⟩
    · rcases hprel with rfl | ⟨hp2, hp1⟩
      · exact Or.inr ⟨hq2, item', List.mem_cons_of_mem _ hmem', hup'⟩
      · exact Or.inr ⟨hp2, item', List.mem_cons_of_mem _ hmem',
          by rw [hup', hp1, apply3_apply3]⟩

/-! Every store state a stage produces is reachable by update steps. -/

theorem stage1Item_reach (tm : Bool) (item : MetaItem) (l : List (WordEntry × Bool))
    (db : Db) : DbReach db (stage1Item tm item (l, db)).2 := by
  unfold stage1Item
  rcases hm : mergeFirst (fun e => item.word == some e.original) (apply1 item) l
    with ⟨res, l'⟩
  cases res with
  | none => exact Relation.ReflTransGen.refl
  | some e1 =>
    by_cases htm : tm = true
    · simp only [htm, if_true]
      exact Relation.ReflTransGen.refl
    · have htm' : tm = false := by simpa using htm
      simp only [htm', Bool.false_eq_true, if_false]
      exact dbReach_update db e1.canonical_form { metadata := true }

theorem stage2Item_reach (tm : Bool) (item : DefItem) (l : List (WordEntry × Bool))
    (db : Db) : DbReach db (stage2Item tm item (l, db)).2 := by
  unfold stage2Item
  rcases hm : mergeFirst (fun e => item.word == some e.original) (apply2 item) l
    with ⟨res, l'⟩
  cases res with
  | none => exact Relation.ReflTransGen.refl
  | some e1 =>
    by_cases htm : tm = true
    · simp only [htm, if_true]
      exact Relation.ReflTransGen.refl
    · have htm' : tm = false := by simpa using htm
      simp only [htm', Bool.false_eq_true, if_false]
      exact dbReach_writeBack2 db e1.canonical_form

theorem stage3Item_reach (tm : Bool) (item : ExItem) (l : List (WordEntry × Bool))
    (db : Db) : DbReach db (stage3Item tm item (l, db)).2 := by
  unfold stage3Item
  rcases hm : mergeFirst (fun e => item.word == some e.original) (apply3 item) l
    with ⟨res, l'⟩
  cases res with
  | none => exact Relation.ReflTransGen.refl
  | some e1 =>
    by_cases htm : tm = true
    · simp only [htm, if_true]
      exact Relation.ReflTransGen.refl
    · have htm' : tm = false := by simpa using htm
      simp only [htm', Bool.false_eq_true, if_false]
      exact dbReach_writeBack3 db e1.canonical_form

theorem stage1Fold_reach (tm : Bool) :
    ∀ (items : List MetaItem) (l : List (WordEntry × Bool)) (db : Db),
      DbReach db ((items.foldl (fun st item => stage1Item tm item st) (l, db)).2) := by
  intro items
  induction items with
  | nil => intro l db; exact Relation.ReflTransGen.refl
  | cons item rest ih =>
    intro l db
    rw [List.foldl_cons]
    have hsplit : stage1Item tm item (l, db) =
        ((stage1Item tm item (l, db)).1, (stage1Item tm item (l, db)).2) := rfl
    rw [hsplit]
    exact dbReach_trans (stage1Item_reach tm item l db) (ih _ _)

theorem stage2Fold_reach (tm : Bool) :
    ∀ (items : List DefItem) (l : List (WordEntry × Bool)) (db : Db),
      DbReach db ((items.foldl (fun st item => stage2Item tm item st) (l, db)).2) := by
  intro items
  induction items with
  | nil => intro l db; exact Relation.ReflTransGen.refl
  | cons item rest ih =>
    intro l db
    rw [List.foldl_cons]
    have hsplit : stage2Item tm item (l, db) =
        ((stage2Item tm item (l, db)).1, (stage2Item tm item (l, db)).2) := rfl
    rw [hsplit]
    exact dbReach_trans (stage2Item_reach tm item l db) (ih _ _)

theorem stage3Fold_reach (tm : Bool) :
    ∀ (items : List ExItem) (l : List (WordEntry × Bool)) (db : Db),
      DbReach db ((items.foldl (fun st item => stage3Item tm item st) (l, db)).2) := by
  intro items
  induction items with
  | nil => intro l db; exact Relation.ReflTransGen.refl
  | cons item rest ih =>
    intro l db
    rw [List.foldl_cons]
    have hsplit : stage3Item tm item (l, db) =
        ((stage3Item tm item (l, db)).1, (stage3Item tm item (l, db)).2) := rfl
    rw [hsplit]
    exact dbReach_trans (stage3Item_reach tm item l db) (ih _ _)

theorem stage4Go_shape (tm : Bool) (orc : Oracles) :
    ∀ (l : List (WordEntry × Bool)) (db : Db) (t : List Ev)
      (r : Except Err (List WordEntry × Db)),
      stage4Go tm orc l db = (t, r) →
      (∀ ev ∈ t, ∃ p ∈ l, p.2 = true ∧ ev = Ev.chatPrompt p.1.original) ∧
      (∀ (l2 : List WordEntry) (db2 : Db), r = .ok (l2, db2) →
        DbReach db db2 ∧
        ∀ (i : Nat) (e' : WordEntry), l2[i]? = some e' → ∃ p, l[i]? = some p ∧
          e'.original = p.1.original ∧ e'.canonical_form = p.1.canonical_form ∧
          e'.word_type = p.1.word_type ∧ e'.translation = p.1.translation ∧
          e'.definition = p.1.definition ∧
          e'.example_sentences = p.1.example_sentences ∧
          e'.image_files = p.1.image_files ∧
          (p.2 = false → e' = p.1)) := by
  intro l
  induction l with
  | nil =>
    intro db t r h
    simp only [stage4Go] at h
    obtain ⟨ht, hr⟩ := Prod.mk.injEq .. ▸ h
    subst ht
    refine ⟨fun ev hev => by simp at hev, fun l2 db2 hok => ?_⟩
    rw [← hr] at hok
    obtain rfl := (Prod.mk.injEq .. ▸ Except.ok.inj hok).1.symm
    obtain rfl := (Prod.mk.injEq .. ▸ Except.ok.inj hok).2.symm
    exact ⟨Relation.ReflTransGen.refl, fun i e' he' => by simp at he'⟩
  | cons q rest ih =>
    intro db t r h
    obtain ⟨e, s⟩ := q
    by_cases hs : s = true
    · subst hs
      rcases hresp : orc.promptResp e with m | resp
      · simp only [stage4Go, hresp, if_true] at h
        obtain ⟨ht, hr⟩ := Prod.mk.injEq .. ▸ h
        subst ht
        refine ⟨fun ev hev => ?_, fun l2 db2 hok => ?_⟩
        · rw [List.mem_singleton] at hev
          exact ⟨(e, true), List.mem_cons_self .., rfl, hev⟩
        · rw [← hr] at hok
          exact absurd hok (by simp)
      · simp only [stage4Go, hresp, if_true] at h
        rcases hrest : stage4Go tm orc rest
            (if tm = true then db
             else stage4WriteBack db
               ({ e with image_prompt := some (pyStrip resp) }).canonical_form)
          with ⟨t2, r2⟩
        rw [hrest] at h
        obtain ⟨IHtr, IHok⟩ := ih _ _ _ hrest
        cases r2 with
        | error m =>
          obtain ⟨ht, hr⟩ := Prod.mk.injEq .. ▸ h
          subst ht
          refine ⟨fun ev hev => ?_, fun l2 db2 hok => ?_⟩
          · rcases List.mem_cons.mp hev with rfl | hev2
            · exact ⟨(e, true), List.mem_cons_self .., rfl, rfl⟩
            · obtain ⟨p, hp, hps, hpev⟩ := IHtr ev hev2
              exact ⟨p, List.mem_cons_of_mem _ hp, hps, hpev⟩
          · rw [← hr] at hok
            exact absurd hok (by simp)
        | ok r2v =>
          rcases r2v with ⟨l2', db2'⟩
          obtain ⟨ht, hr⟩ := Prod.mk.injEq .. ▸ h
          subst ht
          refine ⟨fun ev hev => ?_, fun l2 db2 hok => ?_⟩
          · rcases List.mem_cons.mp hev with rfl | hev2
            · exact ⟨(e, true), List.mem_cons_self .., rfl, rfl⟩
            · obtain ⟨p, hp, hps, hpev⟩ := IHtr ev hev2
              exact ⟨p, List.mem_cons_of_mem _ hp, hps, hpev⟩
          · rw [← hr] at hok
            obtain ⟨hl2, hdb2⟩ := Prod.mk.injEq .. ▸ Except.ok.inj hok
            subst hdb2
            obtain ⟨IHreach, IHpos⟩ := IHok l2' db2' rfl
            have hreach1 : DbReach db
                (if tm = true then db
                 else stage4WriteBack db
                   ({ e with image_prompt := some (pyStrip resp) }).canonical_form) := by
              by_cases htm : tm = true
              · rw [if_pos htm]
                exact Relation.ReflTransGen.refl
              · rw [if_neg htm]
                exact dbReach_writeBack4 db _
            refine ⟨dbReach_trans hreach1 IHreach, fun i e' he' => ?_⟩
            rw [← hl2] at he'
            cases i with
            | zero =>
              rw [List.getElem?_cons_zero] at he'
              obtain rfl := Option.some.inj he'
              exact ⟨(e, true), List.getElem?_cons_zero, rfl, rfl, rfl, rfl, rfl,
                rfl, rfl, fun hfalse => by cases hfalse⟩
            | succ n =>
              rw [List.getElem?_cons_succ] at he'
              obtain ⟨p, hp, hrest'⟩ := IHpos n e' he'
              exact ⟨p, by rw [List.getElem?_cons_succ]; exact hp, hrest'⟩
    · have hs' : s = false := by simpa using hs
      subst hs'
      simp only [stage4Go] at h
      rcases hrest : stage4Go tm orc rest db with ⟨t2, r2⟩
      rw [hrest] at h
      obtain ⟨IHtr, IHok⟩ := ih _ _ _ hrest
      cases r2 with
      | error m =>
        obtain ⟨ht, hr⟩ := Prod.mk.injEq .. ▸ h
        subst ht
        refine ⟨fun ev hev => ?_, fun l2 db2 hok => ?_⟩
        · obtain ⟨p, hp, hps, hpev⟩ := IHtr ev hev
          exact ⟨p, List.mem_cons_of_mem _ hp, hps, hpev⟩
        · rw [← hr] at hok
          exact absurd hok (by simp)
      | ok r2v =>
        rcases r2v with ⟨l2', db2'⟩
        obtain ⟨ht, hr⟩ := Prod.mk.injEq .. ▸ h
        subst ht
        refine ⟨fun ev hev => ?_, fun l2 db2 hok => ?_⟩
        · obtain ⟨p, hp, hps, hpev⟩ := IHtr ev hev
          exact ⟨p, List.mem_cons_of_mem _ hp, hps, hpev⟩
        · rw [← hr] at hok
          obtain ⟨hl2, hdb2⟩ := Prod.mk.injEq .. ▸ Except.ok.inj hok
          subst hdb2
          obtain ⟨IHreach, IHpos⟩ := IHok l2' db2' rfl
          refine ⟨IHreach, fun i e' he' => ?_⟩
          rw [← hl2] at he'
          cases i with
          | zero =>
            rw [List.getElem?_cons_zero] at he'
            obtain rfl := Option.some.inj he'
            exact ⟨(e, false), List.getElem?_cons_zero, rfl, rfl, rfl, rfl, rfl,
              rfl, rfl, fun _ => rfl⟩
          | succ n =>
            rw [List.getElem?_cons_succ] at he'
            obtain ⟨p, hp, hrest'⟩ := IHpos n e' he'
            exact ⟨p, by rw [List.getElem?_cons_succ]; exact hp, hrest'⟩

theorem stage5Go_shape (f tm : Bool) (orc : Oracles) :
    ∀ (l : List (WordEntry × Bool)) (db : Db) (t : List Ev)
      (r : Except Err (List WordEntry × Db)),
      stage5Go f tm orc l db = (t, r) →
      (∀ ev ∈ t, isSleepEv ev = true ∨
        ∃ p ∈ l, p.2 = true ∧ ev ∈ (stage5ProcessItem orc p.1).1) ∧
      (∀ (l2 : List WordEntry) (db2 : Db), r = .ok (l2, db2) →
        DbReach db db2 ∧
        ∀ (i : Nat) (e' : WordEntry), l2[i]? = some e' → ∃ p, l[i]? = some p ∧
          e'.original = p.1.original ∧ e'.canonical_form = p.1.canonical_form ∧
          e'.word_type = p.1.word_type ∧ e'.translation = p.1.translation ∧
          e'.definition = p.1.definition ∧
          e'.example_sentences = p.1.example_sentences ∧
          e'.image_prompt = p.1.image_prompt ∧
          (p.2 = false → e' = p.1)) := by
  intro l
  induction l with
  | nil =>
    intro db t r h
    simp only [stage5Go] at h
    obtain ⟨ht, hr⟩ := Prod.mk.injEq .. ▸ h
    subst ht
    refine ⟨fun ev hev => by simp at hev, fun l2 db2 hok => ?_⟩
    rw [← hr] at hok
    obtain rfl := (Prod.mk.injEq .. ▸ Except.ok.inj hok).1.symm
    obtain rfl := (Prod.mk.injEq .. ▸ Except.ok.inj hok).2.symm
    exact ⟨Relation.ReflTransGen.refl, fun i e' he' => by simp at he'⟩
  | cons q rest ih =>
    intro db t r h
    obtain ⟨e, s⟩ := q
    by_cases hs : s = true
    · subst hs
      by_cases hnn : e.canonical_form.isNone = true
      · simp only [stage5Go, Bool.not_true, Bool.false_eq_true, if_false, hnn,
          if_true] at h
        rcases hrest : stage5Go f tm orc rest db with ⟨t2, r2⟩
        rw [hrest] at h
        obtain ⟨IHtr, IHok⟩ := ih _ _ _ hrest
        cases r2 with
        | error m =>
          obtain ⟨ht, hr⟩ := Prod.mk.injEq .. ▸ h
          subst ht
          refine ⟨fun ev hev => ?_, fun l2 db2 hok => ?_⟩
          · rcases IHtr ev hev with hsl | ⟨p, hp, hps, hpe⟩
            · exact Or.inl hsl
            · exact Or.inr ⟨p, List.mem_cons_of_mem _ hp, hps, hpe⟩
          · rw [← hr] at hok
            exact absurd hok (by simp)
        | ok r2v =>
          rcases r2v with ⟨l2', db2'⟩
          obtain ⟨ht, hr⟩ := Prod.mk.injEq .. ▸ h
          subst ht
          refine ⟨fun ev hev => ?_, fun l2 db2 hok => ?_⟩
          · rcases IHtr ev hev with hsl | ⟨p, hp, hps, hpe⟩
            · exact Or.inl hsl
            · exact Or.inr ⟨p, List.mem_cons_of_mem _ hp, hps, hpe⟩
          · rw [← hr] at hok
            obtain ⟨hl2, hdb2⟩ := Prod.mk.injEq .. ▸ Except.ok.inj hok
            subst hdb2
            obtain ⟨IHreach, IHpos⟩ := IHok l2' db2' rfl
            refine ⟨IHreach, fun i e' he' => ?_⟩
            rw [← hl2] at he'
            cases i with
            | zero =>
              rw [List.getElem?_cons_zero] at he'
              obtain rfl := Option.some.inj he'
              exact ⟨(e, true), List.getElem?_cons_zero, rfl, rfl, rfl, rfl, rfl,
                rfl, rfl, fun hfalse => by cases hfalse⟩
            | succ n =>
              rw [List.getElem?_cons_succ] at he'
              obtain ⟨p, hp, hrest'⟩ := IHpos n e' he'
              exact ⟨p, by rw [List.getElem?_cons_succ]; exact hp, hrest'⟩
      · have hnn' : e.canonical_form.isNone = false := by
          cases h2 : e.canonical_form.isNone with
          | false => rfl
          | true => exact absurd h2 hnn
        by_cases hchk : (!tm && !f &&
            statusImageGen (get_word_status db e.canonical_form)) = true
        · simp only [stage5Go, Bool.not_true, Bool.false_eq_true, if_false, hnn',
            hchk, if_true] at h
          rcases hrest : stage5Go f tm orc rest db with ⟨t2, r2⟩
          rw [hrest] at h
          obtain ⟨IHtr, IHok⟩ := ih _ _ _ hrest
          cases r2 with
          | error m =>
            obtain ⟨ht, hr⟩ := Prod.mk.injEq .. ▸ h
            subst ht
            refine ⟨fun ev hev => ?_, fun l2 db2 hok => ?_⟩
            · rcases IHtr ev hev with hsl | ⟨p, hp, hps, hpe⟩
              · exact Or.inl hsl
              · exact Or.inr ⟨p, List.mem_cons_of_mem _ hp, hps, hpe⟩
            · rw [← hr] at hok
              exact absurd hok (by simp)
          | ok r2v =>
            rcases r2v with ⟨l2', db2'⟩
            obtain ⟨ht, hr⟩ := Prod.mk.injEq .. ▸ h
            subst ht
            refine ⟨fun ev hev => ?_, fun l2 db2 hok => ?_⟩
            · rcases IHtr ev hev with hsl | ⟨p, hp, hps, hpe⟩
              · exact Or.inl hsl
              · exact Or.inr ⟨p, List.mem_cons_of_mem _ hp, hps, hpe⟩
            · rw [← hr] at hok
              obtain ⟨hl2, hdb2⟩ := Prod.mk.injEq .. ▸ Except.ok.inj hok
              subst hdb2
              obtain ⟨IHreach, IHpos⟩ := IHok l2' db2' rfl
              refine ⟨IHreach, fun i e' he' => ?_⟩
              rw [← hl2] at he'
              cases i with
              | zero =>
                rw [List.getElem?_cons_zero] at he'
                obtain rfl := Option.some.inj he'
                exact ⟨(e, true), List.getElem?_cons_zero, rfl, rfl, rfl, rfl, rfl,
                  rfl, rfl, fun hfalse => by cases hfalse⟩
              | succ n =>
                rw [List.getElem?_cons_succ] at he'
                obtain ⟨p, hp, hrest'⟩ := IHpos n e' he'
                exact ⟨p, by rw [List.getElem?_cons_succ]; exact hp, hrest'⟩
        · have hchk' : (!tm && !f &&
              statusImageGen (get_word_status db e.canonical_form)) = false := by
            simpa using hchk
          rcases hproc : stage5ProcessItem orc e with ⟨evs, res⟩
          cases res with
          | error m =>
            simp only [stage5Go, Bool.not_true, Bool.false_eq_true, if_false, hnn',
              hchk', hproc] at h
            obtain ⟨ht, hr⟩ := Prod.mk.injEq .. ▸ h
            subst ht
            refine ⟨fun ev hev => ?_, fun l2 db2 hok => ?_⟩
            · exact Or.inr ⟨(e, true), List.mem_cons_self .., rfl,
                by rw [hproc]; exact hev⟩
            · rw [← hr] at hok
              exact absurd hok (by simp)
          | ok e1 =>
            simp only [stage5Go, Bool.not_true, Bool.false_eq_true, if_false, hnn',
              hchk', hproc] at h
            rcases hrest : stage5Go f tm orc rest
                (if imageFilesNonempty e1 && !tm
                 then stage5WriteBack db e1.canonical_form else db) with ⟨t2, r2⟩
            rw [hrest] at h
            obtain ⟨IHtr, IHok⟩ := ih _ _ _ hrest
            cases r2 with
            | error m =>
              obtain ⟨ht, hr⟩ := Prod.mk.injEq .. ▸ h
              subst ht
              refine ⟨fun ev hev => ?_, fun l2 db2 hok => ?_⟩
              · rcases List.mem_append.mp hev with hev1 | hev2
                · rcases List.mem_append.mp hev1 with hev3 | hev4
                  · exact Or.inr ⟨(e, true), List.mem_cons_self .., rfl,
                      by rw [hproc]; exact hev3⟩
                  · refine Or.inl ?_
                    by_cases hany : rest.any (fun p => p.2) = true
                    · rw [if_pos hany] at hev4
                      rw [List.mem_singleton] at hev4
                      subst hev4
                      rfl
                    · rw [if_neg hany] at hev4
                      simp at hev4
                · rcases IHtr ev hev2 with hsl | ⟨p, hp, hps, hpe⟩
                  · exact Or.inl hsl
                  · exact Or.inr ⟨p, List.mem_cons_of_mem _ hp, hps, hpe⟩
              · rw [← hr] at hok
                exact absurd hok (by simp)
            | ok r2v =>
              rcases r2v with ⟨l2', db2'⟩
              obtain ⟨ht, hr⟩ := Prod.mk.injEq .. ▸ h
              subst ht
              refine ⟨fun ev hev => ?_, fun l2 db2 hok => ?_⟩
              · rcases List.mem_append.mp hev with hev1 | hev2
                · rcases List.mem_append.mp hev1 with hev3 | hev4
                  · exact Or.inr ⟨(e, true), List.mem_cons_self .., rfl,
                      by rw [hproc]; exact hev3⟩
                  · refine Or.inl ?_
                    by_cases hany : rest.any (fun p => p.2) = true
                    · rw [if_pos hany] at hev4
                      rw [List.mem_singleton] at hev4
                      subst hev4
                      rfl
                    · rw [if_neg hany] at hev4
                      simp at hev4
                · rcases IHtr ev hev2 with hsl | ⟨p, hp, hps, hpe⟩
                  · exact Or.inl hsl
                  · exact Or.inr ⟨p, List.mem_cons_of_mem _ hp, hps, hpe⟩
              · rw [← hr] at hok
                obtain ⟨hl2, hdb2⟩ := Prod.mk.injEq .. ▸ Except.ok.inj hok
                subst hdb2
                obtain ⟨IHreach, IHpos⟩ := IHok l2' db2' rfl
                have hreach1 : DbReach db
                    (if imageFilesNonempty e1 && !tm
                     then stage5WriteBack db e1.canonical_form else db) := by
                  by_cases hw : (imageFilesNonempty e1 && !tm) = true
                  · rw [if_pos hw]
                    exact dbReach_writeBack5 db _
                  · rw [if_neg hw]
                    exact Relation.ReflTransGen.refl
                refine ⟨dbReach_trans hreach1 IHreach, fun i e' he' => ?_⟩
                rw [← hl2] at he'
                cases i with
                | zero =>
                  rw [List.getElem?_cons_zero] at he'
                  obtain rfl := Option.some.inj he'
                  obtain ⟨f1, f2, f3, f4, f5, f6, f7⟩ :=
                    stage5ProcessItem_fields orc e evs e1 hproc
                  exact ⟨(e, true), List.getElem?_cons_zero, f1, f2, f3, f4, f5,
                    f6, f7, fun hfalse => by cases hfalse⟩
                | succ n =>
                  rw [List.getElem?_cons_succ] at he'
                  obtain ⟨p, hp, hrest'⟩ := IHpos n e' he'
                  exact ⟨p, by rw [List.getElem?_cons_succ]; exact hp, hrest'⟩
    · have hs' : s = false := by simpa using hs
      subst hs'
      simp only [stage5Go, Bool.not_false, if_true] at h
      rcases hrest : stage5Go f tm orc rest db with ⟨t2, r2⟩
      rw [hrest] at h
      obtain ⟨IHtr, IHok⟩ := ih _ _ _ hrest
      cases r2 with
      | error m =>
        obtain ⟨ht, hr⟩ := Prod.mk.injEq .. ▸ h
        subst ht
        refine ⟨fun ev hev => ?_, fun l2 db2 hok => ?_⟩
        · rcases IHtr ev hev with hsl | ⟨p, hp, hps, hpe⟩
          · exact Or.inl hsl
          · exact Or.inr ⟨p, List.mem_cons_of_mem _ hp, hps, hpe⟩
        · rw [← hr] at hok
          exact absurd hok (by simp)
      | ok r2v =>
        rcases r2v with ⟨l2', db2'⟩
        obtain ⟨ht, hr⟩ := Prod.mk.injEq .. ▸ h
        subst ht
        refine ⟨fun ev hev => ?_, fun l2 db2 hok => ?_⟩
        · rcases IHtr ev hev with hsl | ⟨p, hp, hps, hpe⟩
          · exact Or.inl hsl
          · exact Or.inr ⟨p, List.mem_cons_of_mem _ hp, hps, hpe⟩
        · rw [← hr] at hok
          obtain ⟨hl2, hdb2⟩ := Prod.mk.injEq .. ▸ Except.ok.inj hok
          subst hdb2
          obtain ⟨IHreach, IHpos⟩ := IHok l2' db2' rfl
          refine ⟨IHreach, fun i e' he' => ?_⟩
          rw [← hl2] at he'
          cases i with
          | zero =>
            rw [List.getElem?_cons_zero] at he'
            obtain rfl := Option.some.inj he'
            exact ⟨(e, false), List.getElem?_cons_zero, rfl, rfl, rfl, rfl, rfl,
              rfl, rfl, fun _ => rfl⟩
          | succ n =>
            rw [List.getElem?_cons_succ] at he'
            obtain ⟨p, hp, hrest'⟩ := IHpos n e' he'
            exact ⟨p, by rw [List.getElem?_cons_succ]; exact hp, hrest'⟩

theorem runStage1_shape (f tm : Bool) (orc : Oracles) (es : List WordEntry) (db : Db)
    (t : List Ev) (r : Except Err (List WordEntry × Db))
    (h : runStage1 f tm orc es db = (t, r)) :
    (∀ (es' : List WordEntry) (db' : Db), r = .ok (es', db') →
      DbReach db db' ∧
      ∀ e' ∈ es', ∃ e ∈ es,
        e'.original = e.original ∧ e'.definition = e.definition ∧
        e'.example_sentences = e.example_sentences ∧
        e'.image_prompt = e.image_prompt ∧ e'.image_files = e.image_files ∧
        (stage1Select f tm db e = false → e' = e)) ∧
    (∀ ev ∈ t, ∀ w, evMentions w ev = true →
      ∃ e ∈ es, stage1Select f tm db e = true ∧ e.original = w) := by
  have hto : ∀ w, w ∈ ((es.map (fun e => (e, stage1Select f tm db e))).filter
      (fun p => p.2)).map (fun p => p.1.original) →
      ∃ e ∈ es, stage1Select f tm db e = true ∧ e.original = w := by
    intro w hw
    obtain ⟨p, hpmem, hpw⟩ := List.mem_map.mp hw
    obtain ⟨hpin, hpsel⟩ := List.mem_filter.mp hpmem
    obtain ⟨e, hein, rfl⟩ := List.mem_map.mp hpin
    exact ⟨e, hein, hpsel, hpw⟩
  unfold runStage1 at h
  by_cases hempty : (((es.map (fun e => (e, stage1Select f tm db e))).filter
      (fun p => p.2)).map (fun p => p.1.original)).isEmpty = true
  · rw [if_pos hempty] at h
    obtain ⟨ht, hr⟩ := Prod.mk.injEq .. ▸ h
    subst ht
    refine ⟨fun es' db' hok => ?_, fun ev hev => by simp at hev⟩
    rw [← hr] at hok
    obtain ⟨h1, h2⟩ := Prod.mk.injEq .. ▸ Except.ok.inj hok
    subst h1
    subst h2
    exact ⟨Relation.ReflTransGen.refl,
      fun e' he' => ⟨e', he', rfl, rfl, rfl, rfl, rfl, fun _ => rfl⟩⟩
  · rw [if_neg hempty] at h
    rcases hresp : orc.metaResp (((es.map (fun e => (e, stage1Select f tm db e))).filter
        (fun p => p.2)).map (fun p => p.1.original)) with m | resp
    · rw [hresp] at h
      obtain ⟨ht, hr⟩ := Prod.mk.injEq .. ▸ h
      subst ht
      refine ⟨fun es' db' hok => ?_, fun ev hev => ?_⟩
      · rw [← hr] at hok
        exact absurd hok (by simp)
      · rw [List.mem_singleton] at hev
        subst hev
        intro w hm
        exact hto w (List.mem_of_elem_eq_true (by simpa [evMentions] using hm))
    · rw [hresp] at h
      obtain ⟨ht, hr⟩ := Prod.mk.injEq .. ▸ h
      subst ht
      refine ⟨fun es' db' hok => ?_, fun ev hev => ?_⟩
      · rw [← hr] at hok
        obtain ⟨h1, h2⟩ := Prod.mk.injEq .. ▸ Except.ok.inj hok
        subst h2
        refine ⟨stage1Fold_reach tm resp _ db, fun e' he' => ?_⟩
        rw [← h1] at he'
        obtain ⟨i, hi⟩ := List.mem_iff_getElem?.mp he'
        rw [List.getElem?_map] at hi
        rcases hp' : ((resp.foldl (fun st item => stage1Item tm item st)
            (es.map (fun e => (e, stage1Select f tm db e)), db)).1)[i]? with _ | p'
        · rw [hp'] at hi; simp at hi
        rw [hp'] at hi
        obtain rfl := Option.some.inj hi
        obtain ⟨p, hp, hps, hrel⟩ := stage1Fold_get? tm resp _ db i p' hp'
        rw [List.getElem?_map] at hp
        rcases he : es[i]? with _ | e
        · rw [he] at hp; simp at hp
        rw [he] at hp
        obtain rfl := Option.some.inj hp
        have hemem : e ∈ es := List.mem_iff_getElem?.mpr ⟨i, he⟩
        rcases hrel with rfl | ⟨hsel, item, hitem, hup⟩
        · exact ⟨e, hemem, rfl, rfl, rfl, rfl, rfl, fun _ => rfl⟩
        · refine ⟨e, hemem, by dsimp only; rw [hup]; try rfl,
            by dsimp only; rw [hup]; try rfl, by dsimp only; rw [hup]; try rfl,
            by dsimp only; rw [hup]; try rfl, by dsimp only; rw [hup]; try rfl,
            fun hfalse => ?_⟩
          dsimp only at hsel
          rw [hfalse] at hsel
          cases hsel
      · rw [List.mem_singleton] at hev
        subst hev
        intro w hm
        exact hto w (List.mem_of_elem_eq_true (by simpa [evMentions] using hm))

theorem runStage2_shape (f tm : Bool) (orc : Oracles) (es : List WordEntry) (db : Db)
    (t : List Ev) (r : Except Err (List WordEntry × Db))
    (h : runStage2 f tm orc es db = (t, r)) :
    (∀ (es' : List WordEntry) (db' : Db), r = .ok (es', db') →
      DbReach db db' ∧
      ∀ e' ∈ es', ∃ e ∈ es,
        e'.original = e.original ∧ e'.canonical_form = e.canonical_form ∧
        e'.word_type = e.word_type ∧ e'.translation = e.translation ∧
        e'.example_sentences = e.example_sentences ∧
        e'.image_prompt = e.image_prompt ∧ e'.image_files = e.image_files ∧
        ((isComplex e && stage2Select f tm db e) = false → e' = e)) ∧
    (∀ ev ∈ t, ∀ w, evMentions w ev = true →
      ∃ e ∈ es, (isComplex e && stage2Select f tm db e) = true ∧ e.original = w) := by
  have hto : ∀ w, w ∈ ((es.map (fun e =>
      (e, isComplex e && stage2Select f tm db e))).filter
      (fun p => p.2)).map (fun p => p.1.original) →
      ∃ e ∈ es, (isComplex e && stage2Select f tm db e) = true ∧ e.original = w := by
    intro w hw
    obtain ⟨p, hpmem, hpw⟩ := List.mem_map.mp hw
    obtain ⟨hpin, hpsel⟩ := List.mem_filter.mp hpmem
    obtain ⟨e, hein, rfl⟩ := List.mem_map.mp hpin
    exact ⟨e, hein, hpsel, hpw⟩
  unfold runStage2 at h
  by_cases hempty : (((es.map (fun e =>
      (e, isComplex e && stage2Select f tm db e))).filter
      (fun p => p.2)).map (fun p => p.1.original)).isEmpty = true
  · rw [if_pos hempty] at h
    obtain ⟨ht, hr⟩ := Prod.mk.injEq .. ▸ h
    subst ht
    refine ⟨fun es' db' hok => ?_, fun ev hev => by simp at hev⟩
    rw [← hr] at hok
    obtain ⟨h1, h2⟩ := Prod.mk.injEq .. ▸ Except.ok.inj hok
    subst h1
    subst h2
    exact ⟨Relation.ReflTransGen.refl,
      fun e' he' => ⟨e', he', rfl, rfl, rfl, rfl, rfl, rfl, rfl, fun _ => rfl⟩⟩
  · rw [if_neg hempty] at h
    rcases hresp : orc.defResp (((es.map (fun e =>
        (e, isComplex e && stage2Select f tm db e))).filter
        (fun p => p.2)).map (fun p => p.1.original)) with m | resp
    · rw [hresp] at h
      obtain ⟨ht, hr⟩ := Prod.mk.injEq .. ▸ h
      subst ht
      refine ⟨fun es' db' hok => ?_, fun ev hev => ?_⟩
      · rw [← hr] at hok
        exact absurd hok (by simp)
      · rw [List.mem_singleton] at hev
        subst hev
        intro w hm
        exact hto w (List.mem_of_elem_eq_true (by simpa [evMentions] using hm))
    · rw [hresp] at h
      obtain ⟨ht, hr⟩ := Prod.mk.injEq .. ▸ h
      subst ht
      refine ⟨fun es' db' hok => ?_, fun ev hev => ?_⟩
      · rw [← hr] at hok
        obtain ⟨h1, h2⟩ := Prod.mk.injEq .. ▸ Except.ok.inj hok
        subst h2
        refine ⟨stage2Fold_reach tm resp _ db, fun e' he' => ?_⟩
        rw [← h1] at he'
        obtain ⟨i, hi⟩ := List.mem_iff_getElem?.mp he'
        rw [List.getElem?_map] at hi
        rcases hp' : ((resp.foldl (fun st item => stage2Item tm item st)
            (es.map (fun e => (e, isComplex e && stage2Select f tm db e)), db)).1)[i]?
          with _ | p'
        · rw [hp'] at hi; simp at hi
        rw [hp'] at hi
        obtain rfl := Option.some.inj hi
        obtain ⟨p, hp, hps, hrel⟩ := stage2Fold_get? tm resp _ db i p' hp'
        rw [List.getElem?_map] at hp
        rcases he : es[i]? with _ | e
        · rw [he] at hp; simp at hp
        rw [he] at hp
        obtain rfl := Option.some.inj hp
        have hemem : e ∈ es := List.mem_iff_getElem?.mpr ⟨i, he⟩
        rcases hrel with rfl | ⟨hsel, item, hitem, hup⟩
        · exact ⟨e, hemem, rfl, rfl, rfl, rfl, rfl, rfl, rfl, fun _ => rfl⟩
        · refine ⟨e, hemem, by dsimp only; rw [hup]; try rfl,
            by dsimp only; rw [hup]; try rfl, by dsimp only; rw [hup]; try rfl,
            by dsimp only; rw [hup]; try rfl, by dsimp only; rw [hup]; try rfl,
            by dsimp only; rw [hup]; try rfl, by dsimp only; rw [hup]; try rfl,
            fun hfalse => ?_⟩
          dsimp only at hsel
          rw [hfalse] at hsel
          cases hsel
      · rw [List.mem_singleton] at hev
        subst hev
        intro w hm
        exact hto w (List.mem_of_elem_eq_true (by simpa [evMentions] using hm))

theorem runStage3_shape (f tm : Bool) (orc : Oracles) (es : List WordEntry) (db : Db)
    (t : List Ev) (r : Except Err (List WordEntry × Db))
    (h : runStage3 f tm orc es db = (t, r)) :
    (∀ (es' : List WordEntry) (db' : Db), r = .ok (es', db') →
      DbReach db db' ∧
      ∀ e' ∈ es', ∃ e ∈ es,
        e'.original = e.original ∧ e'.canonical_form = e.canonical_form ∧
        e'.word_type = e.word_type ∧ e'.translation = e.translation ∧
        e'.definition = e.definition ∧
        e'.image_prompt = e.image_prompt ∧ e'.image_files = e.image_files ∧
        ((isComplex e && stage3Select f tm db e) = false → e' = e)) ∧
    (∀ ev ∈ t, ∀ w, evMentions w ev = true →
      ∃ e ∈ es, (isComplex e && stage3Select f tm db e) = true ∧ e.original = w) := by
  have hto : ∀ w, w ∈ ((es.map (fun e =>
      (e, isComplex e && stage3Select f tm db e))).filter
      (fun p => p.2)).map (fun p => p.1.original) →
      ∃ e ∈ es, (isComplex e && stage3Select f tm db e) = true ∧ e.original = w := by
    intro w hw
    obtain ⟨p, hpmem, hpw⟩ := List.mem_map.mp hw
    obtain ⟨hpin, hpsel⟩ := List.mem_filter.mp hpmem
    obtain ⟨e, hein, rfl⟩ := List.mem_map.mp hpin
    exact ⟨e, hein, hpsel, hpw⟩
  unfold runStage3 at h
  by_cases hempty : (((es.map (fun e =>
      (e, isComplex e && stage3Select f tm db e))).filter
      (fun p => p.2)).map (fun p => p.1.original)).isEmpty = true
  · rw [if_pos hempty] at h
    obtain ⟨ht, hr⟩ := Prod.mk.injEq .. ▸ h
    subst ht
    refine ⟨fun es' db' hok => ?_, fun ev hev => by simp at hev⟩
    rw [← hr] at hok
    obtain ⟨h1, h2⟩ := Prod.mk.injEq .. ▸ Except.ok.inj hok
    subst h1
    subst h2
    exact ⟨Relation.ReflTransGen.refl,
      fun e' he' => ⟨e', he', rfl, rfl, rfl, rfl, rfl, rfl, rfl, fun _ => rfl⟩⟩
  · rw [if_neg hempty] at h
    rcases hresp : orc.exResp (((es.map (fun e =>
        (e, isComplex e && stage3Select f tm db e))).filter
        (fun p => p.2)).map (fun p => p.1.original)) with m | resp
    · rw [hresp] at h
      obtain ⟨ht, hr⟩ := Prod.mk.injEq .. ▸ h
      subst ht
      refine ⟨fun es' db' hok => ?_, fun ev hev => ?_⟩
      · rw [← hr] at hok
        exact absurd hok (by simp)
      · rw [List.mem_singleton] at hev
        subst hev
        intro w hm
        exact hto w (List.mem_of_elem_eq_true (by simpa [evMentions] using hm))
    · rw [hresp] at h
      obtain ⟨ht, hr⟩ := Prod.mk.injEq .. ▸ h
      subst ht
      refine ⟨fun es' db' hok => ?_, fun ev hev => ?_⟩
      · rw [← hr] at hok
        obtain ⟨h1, h2⟩ := Prod.mk.injEq .. ▸ Except.ok.inj hok
        subst h2
        refine ⟨stage3Fold_reach tm resp _ db, fun e' he' => ?_⟩
        rw [← h1] at he'
        obtain ⟨i, hi⟩ := List.mem_iff_getElem?.mp he'
        rw [List.getElem?_map] at hi
        rcases hp' : ((resp.foldl (fun st item => stage3Item tm item st)
            (es.map (fun e => (e, isComplex e && stage3Select f tm db e)), db)).1)[i]?
          with _ | p'
        · rw [hp'] at hi; simp at hi
        rw [hp'] at hi
        obtain rfl := Option.some.inj hi
        obtain ⟨p, hp, hps, hrel⟩ := stage3Fold_get? tm resp _ db i p' hp'
        rw [List.getElem?_map] at hp
        rcases he : es[i]? with _ | e
        · rw [he] at hp; simp at hp
        rw [he] at hp
        obtain rfl := Option.some.inj hp
        have hemem : e ∈ es := List.mem_iff_getElem?.mpr ⟨i, he⟩
        rcases hrel with rfl | ⟨hsel, item, hitem, hup⟩
        · exact ⟨e, hemem, rfl, rfl, rfl, rfl, rfl, rfl, rfl, fun _ => rfl⟩
        · refine ⟨e, hemem, by dsimp only; rw [hup]; try rfl,
            by dsimp only; rw [hup]; try rfl, by dsimp only; rw [hup]; try rfl,
            by dsimp only; rw [hup]; try rfl, by dsimp only; rw [hup]; try rfl,
            by dsimp only; rw [hup]; try rfl, by dsimp only; rw [hup]; try rfl,
            fun hfalse => ?_⟩
          dsimp only at hsel
          rw [hfalse] at hsel
          cases hsel
      · rw [List.mem_singleton] at hev
        subst hev
        intro w hm
        exact hto w (List.mem_of_elem_eq_true (by simpa [evMentions] using hm))

theorem runStage4_shape (f tm : Bool) (orc : Oracles) (es : List WordEntry) (db : Db)
    (t : List Ev) (r : Except Err (List WordEntry × Db))
    (h : runStage4 f tm orc es db = (t, r)) :
    (∀ (es' : List WordEntry) (db' : Db), r = .ok (es', db') →
      DbReach db db' ∧
      ∀ e' ∈ es', ∃ e ∈ es,
        e'.original = e.original ∧ e'.canonical_form = e.canonical_form ∧
        e'.word_type = e.word_type ∧ e'.translation = e.translation ∧
        e'.definition = e.definition ∧ e'.example_sentences = e.example_sentences ∧
        e'.image_files = e.image_files ∧
        ((isComplex e && stage4Select f tm db e) = false → e' = e)) ∧
    (∀ ev ∈ t, ∀ w, evMentions w ev = true →
      ∃ e ∈ es, (isComplex e && stage4Select f tm db e) = true ∧ e.original = w) := by
  unfold runStage4 at h
  obtain ⟨htr, hok⟩ := stage4Go_shape tm orc _ db t r h
  refine ⟨fun es' db' hokk => ?_, fun ev hev w hm => ?_⟩
  · obtain ⟨hreach, hpos⟩ := hok es' db' hokk
    refine ⟨hreach, fun e' he' => ?_⟩
    obtain ⟨i, hi⟩ := List.mem_iff_getElem?.mp he'
    obtain ⟨p, hp, hfields⟩ := hpos i e' hi
    rw [List.getElem?_map] at hp
    rcases he : es[i]? with _ | e
    · rw [he] at hp; simp at hp
    rw [he] at hp
    obtain rfl := Option.some.inj hp
    have hemem : e ∈ es := List.mem_iff_getElem?.mpr ⟨i, he⟩
    exact ⟨e, hemem, hfields.1, hfields.2.1, hfields.2.2.1, hfields.2.2.2.1,
      hfields.2.2.2.2.1, hfields.2.2.2.2.2.1, hfields.2.2.2.2.2.2.1,
      fun hfalse => hfields.2.2.2.2.2.2.2 (by dsimp only; exact hfalse)⟩
  · obtain ⟨p, hpmem, hpsel, hpev⟩ := htr ev hev
    obtain ⟨e, hein, rfl⟩ := List.mem_map.mp hpmem
    subst hpev
    refine ⟨e, hein, hpsel, by simpa [evMentions] using hm⟩

theorem runStage5_shape (f tm : Bool) (orc : Oracles) (es : List WordEntry) (db : Db)
    (t : List Ev) (r : Except Err (List WordEntry × Db))
    (h : runStage5 f tm orc es db = (t, r)) :
    (∀ (es' : List WordEntry) (db' : Db), r = .ok (es', db') →
      DbReach db db' ∧
      ∀ e' ∈ es', ∃ e ∈ es,
        e'.original = e.original ∧ e'.canonical_form = e.canonical_form ∧
        e'.word_type = e.word_type ∧ e'.translation = e.translation ∧
        e'.definition = e.definition ∧ e'.example_sentences = e.example_sentences ∧
        e'.image_prompt = e.image_prompt ∧
        (stage5Select f tm db e = false → e' = e)) ∧
    (∀ ev ∈ t, ∀ w, evMentions w ev = true →
      ∃ e ∈ es, stage5Select f tm db e = true ∧ e.original = w) := by
  unfold runStage5 at h
  obtain ⟨htr, hok⟩ := stage5Go_shape f tm orc _ db t r h
  refine ⟨fun es' db' hokk => ?_, fun ev hev w hm => ?_⟩
  · obtain ⟨hreach, hpos⟩ := hok es' db' hokk
    refine ⟨hreach, fun e' he' => ?_⟩
    obtain ⟨i, hi⟩ := List.mem_iff_getElem?.mp he'
    obtain ⟨p, hp, hfields⟩ := hpos i e' hi
    rw [List.getElem?_map] at hp
    rcases he : es[i]? with _ | e
    · rw [he] at hp; simp at hp
    rw [he] at hp
    obtain rfl := Option.some.inj hp
    have hemem : e ∈ es := List.mem_iff_getElem?.mpr ⟨i, he⟩
    exact ⟨e, hemem, hfields.1, hfields.2.1, hfields.2.2.1, hfields.2.2.2.1,
      hfields.2.2.2.2.1, hfields.2.2.2.2.2.1, hfields.2.2.2.2.2.2.1,
      fun hfalse => hfields.2.2.2.2.2.2.2 (by dsimp only; exact hfalse)⟩
  · rcases htr ev hev with hsl | ⟨p, hpmem, hpsel, hpev⟩
    · rw [show ev = Ev.sleep 3 from ?_] at hm
      · simp [evMentions] at hm
      · cases ev <;> simp_all [isSleepEv, evMentions]
    · obtain ⟨e, hein, rfl⟩ := List.mem_map.mp hpmem
      have := (stage5ProcessItem_ev orc _ ev hpev).2.1 w hm
      exact ⟨e, hein, hpsel, this⟩

theorem chunkListAux_mem (n : Nat) :
    ∀ (fuel : Nat) (l b : List WordEntry), b ∈ chunkListAux n fuel l →
      ∀ x ∈ b, x ∈ l := by
  intro fuel
  induction fuel with
  | zero =>
    intro l b hb x hx
    cases l with
    | nil => simp [chunkListAux] at hb
    | cons a as =>
      simp only [chunkListAux, List.mem_singleton] at hb
      subst hb
      exact hx
  | succ fl ih =>
    intro l b hb x hx
    cases l with
    | nil => simp [chunkListAux] at hb
    | cons a as =>
      simp only [chunkListAux, List.mem_cons] at hb
      rcases hb with rfl | hb2
      · rcases List.mem_cons.mp hx with rfl | hx2
        · exact List.mem_cons_self ..
        · exact List.mem_cons_of_mem _ (List.mem_of_mem_take hx2)
      · exact List.mem_cons_of_mem _
          (List.mem_of_mem_drop (ih (as.drop (n - 1)) b hb2 x hx))

theorem processBatch_simple_fields (f tm : Bool) (orc : Oracles)
    (es : List WordEntry) (db : Db) (t : List Ev) (es' : List WordEntry) (db' : Db)
    (h : processBatchEntries f tm orc es db = (t, .ok (es', db')))
    (hfresh : ∀ e ∈ es, e.definition = none ∧ e.example_sentences = none ∧
      e.image_prompt = none) :
    ∀ e' ∈ es', e'.word_type = some "SIMPLE" →
      e'.definition = none ∧ e'.example_sentences = none ∧ e'.image_prompt = none := by
  intro e' he' hwt
  unfold processBatchEntries at h
  rcases h1 : runStage1 f tm orc es db with ⟨t1, r1⟩
  rw [h1] at h
  cases r1 with
  | error m => obtain ⟨-, hr⟩ := Prod.mk.injEq .. ▸ h; exact absurd hr.symm (by simp)
  | ok v1 =>
    rcases v1 with ⟨es1, db1⟩
    dsimp only at h
    rcases h2 : runStage2 f tm orc es1 db1 with ⟨t2, r2⟩
    rw [h2] at h
    cases r2 with
    | error m => obtain ⟨-, hr⟩ := Prod.mk.injEq .. ▸ h; exact absurd hr.symm (by simp)
    | ok v2 =>
      rcases v2 with ⟨es2, db2⟩
      dsimp only at h
      rcases h3 : runStage3 f tm orc es2 db2 with ⟨t3, r3⟩
      rw [h3] at h
      cases r3 with
      | error m => obtain ⟨-, hr⟩ := Prod.mk.injEq .. ▸ h; exact absurd hr.symm (by simp)
      | ok v3 =>
        rcases v3 with ⟨es3, db3⟩
        dsimp only at h
        rcases h4 : runStage4 f tm orc es3 db3 with ⟨t4, r4⟩
        rw [h4] at h
        cases r4 with
        | error m => obtain ⟨-, hr⟩ := Prod.mk.injEq .. ▸ h; exact absurd hr.symm (by simp)
        | ok v4 =>
          rcases v4 with ⟨es4, db4⟩
          dsimp only at h
          rcases h5 : runStage5 f tm orc es4 db4 with ⟨t5, r5⟩
          rw [h5] at h
          cases r5 with
          | error m => obtain ⟨-, hr⟩ := Prod.mk.injEq .. ▸ h; exact absurd hr.symm (by simp)
          | ok v5 =>
            rcases v5 with ⟨es5, db5⟩
            dsimp only at h
            obtain ⟨-, hr⟩ := Prod.mk.injEq .. ▸ h
            obtain ⟨hes, -⟩ := Prod.mk.injEq .. ▸ Except.ok.inj hr.symm
            subst hes
            obtain ⟨e4, he4, g1, g2, g3, g4, g5, g6, g7, -⟩ :=
              ((runStage5_shape f tm orc es4 db4 t5 _ h5).1 _ _ rfl).2 e' he'
            have hwt4 : e4.word_type = some "SIMPLE" := by rw [← g3, hwt]
            obtain ⟨e3, he3, k1, k2, k3, k4, k5, k6, k7, kunch⟩ :=
              ((runStage4_shape f tm orc es3 db3 t4 _ h4).1 es4 db4 rfl).2 e4 he4
            have hwt3 : e3.word_type = some "SIMPLE" := by rw [← k3, hwt4]
            have heq43 : e4 = e3 := kunch (by simp [isComplex, hwt3])
            obtain ⟨e2, he2, m1, m2, m3, m4, m5, m6, m7, munch⟩ :=
              ((runStage3_shape f tm orc es2 db2 t3 _ h3).1 es3 db3 rfl).2 e3 he3
            have hwt2 : e2.word_type = some "SIMPLE" := by rw [← m3, hwt3]
            have heq32 : e3 = e2 := munch (by simp [isComplex, hwt2])
            obtain ⟨e1, he1, n1, n2, n3, n4, n5, n6, n7, nunch⟩ :=
              ((runStage2_shape f tm orc es1 db1 t2 _ h2).1 es2 db2 rfl).2 e2 he2
            have hwt1 : e1.word_type = some "SIMPLE" := by rw [← n3, hwt2]
            have heq21 : e2 = e1 := nunch (by simp [isComplex, hwt1])
            obtain ⟨e0, he0, q1, q2, q3, q4, q5, -⟩ :=
              ((runStage1_shape f tm orc es db t1 _ h1).1 es1 db1 rfl).2 e1 he1
            obtain ⟨hd0, he0x, hip0⟩ := hfresh e0 he0
            refine ⟨?_, ?_, ?_⟩
            · rw [g5, heq43, m5, heq21, q2, hd0]
            · rw [g6, heq43, heq32, n5, q3, he0x]
            · rw [g7, heq43, m6, n6, q4, hip0]

theorem processBatches_simple_fields (f tm : Bool) (orc : Oracles) :
    ∀ (bs : List (List WordEntry)) (db : Db) (t : List Ev)
      (es : List WordEntry) (db2 : Db),
      processBatches f tm orc bs db = (t, .ok (es, db2)) →
      (∀ b ∈ bs, ∀ e ∈ b, e.definition = none ∧ e.example_sentences = none ∧
        e.image_prompt = none) →
      ∀ e ∈ es, e.word_type = some "SIMPLE" →
        e.definition = none ∧ e.example_sentences = none ∧ e.image_prompt = none := by
  intro bs
  induction bs with
  | nil =>
    intro db t es db2 h _
    simp only [processBatches] at h
    obtain ⟨-, hr⟩ := Prod.mk.injEq .. ▸ h
    obtain ⟨hes, -⟩ := Prod.mk.injEq .. ▸ Except.ok.inj hr
    intro e he
    rw [← hes] at he
    simp at he
  | cons b bs ih =>
    intro db t es db2 h hfresh
    simp only [processBatches] at h
    rcases hb : processBatchEntries f tm orc b db with ⟨tb, rb⟩
    rw [hb] at h
    cases rb with
    | error m => obtain ⟨-, hr⟩ := Prod.mk.injEq .. ▸ h; exact absurd hr (by simp)
    | ok vb =>
      rcases vb with ⟨esb, dbb⟩
      dsimp only at h
      rcases hrest : processBatches f tm orc bs dbb with ⟨t2, r2⟩
      rw [hrest] at h
      cases r2 with
      | error m => obtain ⟨-, hr⟩ := Prod.mk.injEq .. ▸ h; exact absurd hr (by simp)
      | ok v2 =>
        rcases v2 with ⟨es2, db2v⟩
        obtain ⟨-, hr⟩ := Prod.mk.injEq .. ▸ h
        obtain ⟨hes, -⟩ := Prod.mk.injEq .. ▸ Except.ok.inj hr
        intro e he hwt
        rw [← hes] at he
        rcases List.mem_append.mp he with heb | he2
        · exact processBatch_simple_fields f tm orc b db tb esb dbb hb
            (hfresh b (List.mem_cons_self ..)) e heb hwt
        · exact ih dbb t2 es2 db2v hrest
            (fun b2 hb2 => hfresh b2 (List.mem_cons_of_mem _ hb2)) e he2 hwt

/-- C8: through a whole pipeline run started from raw words, an entity that
ends with word_type SIMPLE has definition, example_sentences and
image_prompt still unset, and the Stage 5 dispatch sends it to the stock
photo path whose external calls are search and download events only; an
entity with word_type COMPLEX passes the COMPLEX gate of Stages 2 to 4, and
its Stage 5 dispatch is the generation path whose external calls are image
generation events only. -/
theorem c8_branch_correctness :
    ∀ (f tm : Bool) (orc : Oracles) (words : List String) (db : Db)
      (t : List Ev) (es : List WordEntry) (db2 : Db),
      process f tm orc words db = (t, .ok (es, db2)) →
      ∀ e ∈ es,
        (e.word_type = some "SIMPLE" →
          e.definition = none ∧ e.example_sentences = none ∧ e.image_prompt = none ∧
          stage5ProcessItem orc e = fetchPexelsImages orc e ∧
          ∀ ev ∈ (stage5ProcessItem orc e).1, isStockEv ev = true) ∧
        (e.word_type = some "COMPLEX" →
          isComplex e = true ∧
          stage5ProcessItem orc e = generateDalleImage orc e ∧
          ∀ ev ∈ (stage5ProcessItem orc e).1, isGenEv ev = true) := by
  intro f tm orc words db t es db2 h e he
  constructor
  · intro hwt
    have hfields := processBatches_simple_fields f tm orc _ db t es db2 h
      (by
        intro b hb e2 he2
        have hmem := chunkListAux_mem BATCH_SIZE _ _ b hb e2 he2
        obtain ⟨w, hw, rfl⟩ := List.mem_map.mp hmem
        exact ⟨rfl, rfl, rfl⟩)
      e he hwt
    refine ⟨hfields.1, hfields.2.1, hfields.2.2, ?_, ?_⟩
    · unfold stage5ProcessItem
      rw [if_pos (by simp [hwt])]
    · intro ev hev
      exact (stage5ProcessItem_ev orc e ev hev).2.2.1 hwt
  · intro hwt
    refine ⟨by simp [isComplex, hwt], ?_, ?_⟩
    · unfold stage5ProcessItem
      rw [if_neg (by simp [hwt])]
    · intro ev hev
      exact (stage5ProcessItem_ev orc e ev hev).2.2.2 (by simp [hwt])


/-- Witness for c8_branch_correctness on a run classifying one word SIMPLE. -/
theorem c8_branch_correctness_witness :
    process false false orcSimplePas ["pas"] [] =
      ([Ev.chatBulk 1 ["pas"], Ev.pexelsSearch "pas" "dog",
        Ev.downloadImg "pas" "http1"],
       .ok ([{ original := "pas", canonical_form := some "pas",
               part_of_speech := some "imenica", word_type := some "SIMPLE",
               translation := some "dog",
               image_files := some ["tmp/images/pas_0.jpg"] }],
            [(some "pas", { metadata := true, image_generation := true })])) ∧
    WordEntry.definition
      { original := "pas", canonical_form := some "pas",
        part_of_speech := some "imenica", word_type := some "SIMPLE",
        translation := some "dog",
        image_files := some ["tmp/images/pas_0.jpg"] } = none ∧
    stage5ProcessItem orcSimplePas
      { original := "pas", canonical_form := some "pas",
        part_of_speech := some "imenica", word_type := some "SIMPLE",
        translation := some "dog",
        image_files := some ["tmp/images/pas_0.jpg"] } =
      fetchPexelsImages orcSimplePas
        { original := "pas", canonical_form := some "pas",
          part_of_speech := some "imenica", word_type := some "SIMPLE",
          translation := some "dog",
          image_files := some ["tmp/images/pas_0.jpg"] } := by
  have hrun : process false false orcSimplePas ["pas"] [] =
      ([Ev.chatBulk 1 ["pas"], Ev.pexelsSearch "pas" "dog",
        Ev.downloadImg "pas" "http1"],
       .ok ([{ original := "pas", canonical_form := some "pas",
               part_of_speech := some "imenica", word_type := some "SIMPLE",
               translation := some "dog",
               image_files := some ["tmp/images/pas_0.jpg"] }],
            [(some "pas", { metadata := true, image_generation := true })])) := by
    decide
  have h := (c8_branch_correctness false false orcSimplePas ["pas"] [] _ _ _ hrun
    { original := "pas", canonical_form := some "pas",
      part_of_speech := some "imenica", word_type := some "SIMPLE",
      translation := some "dog",
      image_files := some ["tmp/images/pas_0.jpg"] }
    (List.mem_cons_self ..)).1 rfl
  exact ⟨hrun, h.1, h.2.2.2.1⟩

theorem processBatch_no_mention (orc : Oracles) (es : List WordEntry) (db : Db)
    (w : String)
    (hdb : (get_word_status db (some w)).isSome = true)
    (hinv : ∀ e ∈ es, e.original = w →
      e.word_type = none ∧ e.canonical_form = none) :
    (∀ ev ∈ (processBatchEntries false false orc es db).1,
      evMentions w ev = false) ∧
    (∀ (es' : List WordEntry) (db' : Db),
      (processBatchEntries false false orc es db).2 = .ok (es', db') →
      (get_word_status db' (some w)).isSome = true) := by
  have hsel1 : ∀ e ∈ es, e.original = w → stage1Select false false db e = false := by
    intro e _ hw
    unfold stage1Select
    rw [hw]
    simp only [Bool.false_or]
    rw [Option.isNone_eq_false_iff]
    exact hdb
  unfold processBatchEntries
  rcases h1 : runStage1 false false orc es db with ⟨t1, r1⟩
  obtain ⟨hok1, htr1⟩ := runStage1_shape false false orc es db t1 r1 h1
  have hnm1 : ∀ ev ∈ t1, evMentions w ev = false := by
    intro ev hev
    by_contra hcon
    rw [Bool.not_eq_false] at hcon
    obtain ⟨e, hemem, hesel, heorig⟩ := htr1 ev hev w hcon
    rw [hsel1 e hemem heorig] at hesel
    cases hesel
  cases r1 with
  | error m =>
    exact ⟨fun ev hev => hnm1 ev hev, fun es' db' hok => absurd hok (by simp)⟩
  | ok v1 =>
    rcases v1 with ⟨es1, db1⟩
    obtain ⟨hreach1, hmem1⟩ := hok1 es1 db1 rfl
    have hdb1 : (get_word_status db1 (some w)).isSome = true :=
      dbReach_isSome hreach1 (some w) hdb
    have hinv1 : ∀ e ∈ es1, e.original = w →
        e.word_type = none ∧ e.canonical_form = none := by
      intro e1 he1 hw1
      obtain ⟨e, hemem, f1, f2, f3, f4, f5, funch⟩ := hmem1 e1 he1
      have hw : e.original = w := by rw [← f1, hw1]
      obtain rfl := funch (hsel1 e hemem hw)
      exact hinv _ hemem hw
    dsimp only
    rcases h2 : runStage2 false false orc es1 db1 with ⟨t2, r2⟩
    obtain ⟨hok2, htr2⟩ := runStage2_shape false false orc es1 db1 t2 r2 h2
    have hnm2 : ∀ ev ∈ t2, evMentions w ev = false := by
      intro ev hev
      by_contra hcon
      rw [Bool.not_eq_false] at hcon
      obtain ⟨e, hemem, hesel, heorig⟩ := htr2 ev hev w hcon
      have hcx : isComplex e = false := by
        simp [isComplex, (hinv1 e hemem heorig).1]
      rw [hcx, Bool.false_and] at hesel
      cases hesel
    cases r2 with
    | error m =>
      refine ⟨fun ev hev => ?_, fun es' db' hok => absurd hok (by simp)⟩
      rcases List.mem_append.mp hev with h1m | h2m
      · exact hnm1 ev h1m
      · exact hnm2 ev h2m
    | ok v2 =>
      rcases v2 with ⟨es2, db2⟩
      obtain ⟨hreach2, hmem2⟩ := hok2 es2 db2 rfl
      have hdb2 : (get_word_status db2 (some w)).isSome = true :=
        dbReach_isSome hreach2 (some w) hdb1
      have hinv2 : ∀ e ∈ es2, e.original = w →
          e.word_type = none ∧ e.canonical_form = none := by
        intro e2 he2 hw2
        obtain ⟨e, hemem, f1, f2, f3, f4, f5, f6, f7, funch⟩ := hmem2 e2 he2
        have hw : e.original = w := by rw [← f1, hw2]
        have hcx : isComplex e = false := by
          simp [isComplex, (hinv1 e hemem hw).1]
        obtain rfl := funch (by rw [hcx, Bool.false_and])
        exact hinv1 _ hemem hw
      dsimp only
      rcases h3 : runStage3 false false orc es2 db2 with ⟨t3, r3⟩
      obtain ⟨hok3, htr3⟩ := runStage3_shape false false orc es2 db2 t3 r3 h3
      have hnm3 : ∀ ev ∈ t3, evMentions w ev = false := by
        intro ev hev
        by_contra hcon
        rw [Bool.not_eq_false] at hcon
        obtain ⟨e, hemem, hesel, heorig⟩ := htr3 ev hev w hcon
        have hcx : isComplex e = false := by
          simp [isComplex, (hinv2 e hemem heorig).1]
        rw [hcx, Bool.false_and] at hesel
        cases hesel
      cases r3 with
      | error m =>
        refine ⟨fun ev hev => ?_, fun es' db' hok => absurd hok (by simp)⟩
        rcases List.mem_append.mp hev with h12m | h3m
        · rcases List.mem_append.mp h12m with h1m | h2m
          · exact hnm1 ev h1m
          · exact hnm2 ev h2m
        · exact hnm3 ev h3m
      | ok v3 =>
        rcases v3 with ⟨es3, db3⟩
        obtain ⟨hreach3, hmem3⟩ := hok3 es3 db3 rfl
        have hdb3 : (get_word_status db3 (some w)).isSome = true :=
          dbReach_isSome hreach3 (some w) hdb2
        have hinv3 : ∀ e ∈ es3, e.original = w →
            e.word_type = none ∧ e.canonical_form = none := by
          intro e3 he3 hw3
          obtain ⟨e, hemem, f1, f2, f3, f4, f5, f6, f7, funch⟩ := hmem3 e3 he3
          have hw : e.original = w := by rw [← f1, hw3]
          have hcx : isComplex e = false := by
            simp [isComplex, (hinv2 e hemem hw).1]
          obtain rfl := funch (by rw [hcx, Bool.false_and])
          exact hinv2 _ hemem hw
        dsimp only
        rcases h4 : runStage4 false false orc es3 db3 with ⟨t4, r4⟩
        obtain ⟨hok4, htr4⟩ := runStage4_shape false false orc es3 db3 t4 r4 h4
        have hnm4 : ∀ ev ∈ t4, evMentions w ev = false := by
          intro ev hev
          by_contra hcon
          rw [Bool.not_eq_false] at hcon
          obtain ⟨e, hemem, hesel, heorig⟩ := htr4 ev hev w hcon
          have hcx : isComplex e = false := by
            simp [isComplex, (hinv3 e hemem heorig).1]
          rw [hcx, Bool.false_and] at hesel
          cases hesel
        cases r4 with
        | error m =>
          refine ⟨fun ev hev => ?_, fun es' db' hok => absurd hok (by simp)⟩
          rcases List.mem_append.mp hev with h123m | h4m
          · rcases List.mem_append.mp h123m with h12m | h3m
            · rcases List.mem_append.mp h12m with h1m | h2m
              · exact hnm1 ev h1m
              · exact hnm2 ev h2m
            · exact hnm3 ev h3m
          · exact hnm4 ev h4m
        | ok v4 =>
          rcases v4 with ⟨es4, db4⟩
          obtain ⟨hreach4, hmem4⟩ := hok4 es4 db4 rfl
          have hdb4 : (get_word_status db4 (some w)).isSome = true :=
            dbReach_isSome hreach4 (some w) hdb3
          have hinv4 : ∀ e ∈ es4, e.original = w →
              e.word_type = none ∧ e.canonical_form = none := by
            intro e4 he4 hw4
            obtain ⟨e, hemem, f1, f2, f3, f4, f5, f6, f7, funch⟩ := hmem4 e4 he4
            have hw : e.original = w := by rw [← f1, hw4]
            have hcx : isComplex e = false := by
              simp [isComplex, (hinv3 e hemem hw).1]
            obtain rfl := funch (by rw [hcx, Bool.false_and])
            exact hinv3 _ hemem hw
          dsimp only
          rcases h5 : runStage5 false false orc es4 db4 with ⟨t5, r5⟩
          obtain ⟨hok5, htr5⟩ := runStage5_shape false false orc es4 db4 t5 r5 h5
          have hnm5 : ∀ ev ∈ t5, evMentions w ev = false := by
            intro ev hev
            by_contra hcon
            rw [Bool.not_eq_false] at hcon
            obtain ⟨e, hemem, hesel, heorig⟩ := htr5 ev hev w hcon
            unfold stage5Select at hesel
            rw [(hinv4 e hemem heorig).2] at hesel
            cases hesel
          cases r5 with
          | error m =>
            refine ⟨fun ev hev => ?_, fun es' db' hok => absurd hok (by simp)⟩
            rcases List.mem_append.mp hev with h1234m | h5m
            · rcases List.mem_append.mp h1234m with h123m | h4m
              · rcases List.mem_append.mp h123m with h12m | h3m
                · rcases List.mem_append.mp h12m with h1m | h2m
                  · exact hnm1 ev h1m
                  · exact hnm2 ev h2m
                · exact hnm3 ev h3m
              · exact hnm4 ev h4m
            · exact hnm5 ev h5m
          | ok v5 =>
            rcases v5 with ⟨es5, db5⟩
            obtain ⟨hreach5, -⟩ := hok5 es5 db5 rfl
            have hdb5 : (get_word_status db5 (some w)).isSome = true :=
              dbReach_isSome hreach5 (some w) hdb4
            refine ⟨fun ev hev => ?_, fun es' db' hok => ?_⟩
            · rcases List.mem_append.mp hev with h1234m | h5m
              · rcases List.mem_append.mp h1234m with h123m | h4m
                · rcases List.mem_append.mp h123m with h12m | h3m
                  · rcases List.mem_append.mp h12m with h1m | h2m
                    · exact hnm1 ev h1m
                    · exact hnm2 ev h2m
                  · exact hnm3 ev h3m
                · exact hnm4 ev h4m
              · exact hnm5 ev h5m
            · obtain ⟨-, hdbeq⟩ := Prod.mk.injEq .. ▸ Except.ok.inj hok
              rw [← hdbeq]
              exact hdb5

theorem processBatches_no_mention (orc : Oracles) (w : String) :
    ∀ (bs : List (List WordEntry)) (db : Db),
      (get_word_status db (some w)).isSome = true →
      (∀ b ∈ bs, ∀ e ∈ b, e.word_type = none ∧ e.canonical_form = none) →
      ∀ ev ∈ (processBatches false false orc bs db).1, evMentions w ev = false := by
  intro bs
  induction bs with
  | nil =>
    intro db _ _ ev hev
    simp [processBatches] at hev
  | cons b rest ih =>
    intro db hdb hfresh ev hev
    simp only [processBatches] at hev
    rcases hb : processBatchEntries false false orc b db with ⟨tb, rb⟩
    rw [hb] at hev
    obtain ⟨hbnm, hbdb⟩ := processBatch_no_mention orc b db w hdb
      (fun e he _ => hfresh b (List.mem_cons_self ..) e he)
    cases rb with
    | error m =>
      dsimp only at hev
      exact hbnm ev (by rw [hb]; exact hev)
    | ok vb =>
      rcases vb with ⟨esb, dbb⟩
      dsimp only at hev
      rcases hrest : processBatches false false orc rest dbb with ⟨t2, r2⟩
      rw [hrest] at hev
      have hdbb : (get_word_status dbb (some w)).isSome = true :=
        hbdb esb dbb (by rw [hb])
      have hrtr : ∀ ev ∈ t2, evMentions w ev = false := by
        intro ev2 hev2
        have := ih dbb hdbb (fun b2 hb2 => hfresh b2 (List.mem_cons_of_mem _ hb2)) ev2
        rw [hrest] at this
        exact this hev2
      cases r2 with
      | error m =>
        dsimp only at hev
        rcases List.mem_append.mp hev with h1m | h2m
        · exact hbnm ev (by rw [hb]; exact h1m)
        · exact hrtr ev h2m
      | ok v2 =>
        dsimp only at hev
        rcases List.mem_append.mp hev with h1m | h2m
        · exact hbnm ev (by rw [hb]; exact h1m)
        · exact hrtr ev h2m

/-- C1, amended: a second run keyed run performs no external calls for a word
whose persisted status lies under its original spelling: whenever the store
holds a row keyed by the word itself (as it does for a completed word whose
canonical form equals its original), every stage skips it and no event of the
run mentions it.  A completed word whose canonical form differs from its
original spelling carries no such row, and Stage 1 re-selects it. -/
theorem c1_amended_idempotence :
    ∀ (orc : Oracles) (words : List String) (db : Db) (w : String),
      (get_word_status db (some w)).isSome = true →
      ∀ ev ∈ (process false false orc words db).1, evMentions w ev = false := by
  intro orc words db w hdb ev hev
  unfold process at hev
  refine processBatches_no_mention orc w _ db hdb ?_ ev hev
  intro b hb e he
  have hmem := chunkListAux_mem BATCH_SIZE _ _ b hb e he
  obtain ⟨w2, hw2, rfl⟩ := List.mem_map.mp hmem
  exact ⟨rfl, rfl⟩

/-- C1, counterexample: the word jabuke fully completes all five stages on a
first run against an empty store (the persisted row under its canonical form
jabuka carries every flag), yet a second identical run issues external calls
mentioning jabuke again: the Stage 1 skip check reads the key jabuke, which
holds no row. -/
theorem c1_counterexample :
    (process false false orcCanonDiffers ["jabuke"] []).2.isOk = true ∧
    get_word_status dbAfterFirstRun (some "jabuka") =
      some { metadata := true, definition := true, examples := true,
             image_prompt := true, image_generation := true } ∧
    get_word_status dbAfterFirstRun (some "jabuke") = none ∧
    (process false false orcCanonDiffers ["jabuke"] dbAfterFirstRun).1.any
      (evMentions "jabuke") = true := by
  refine ⟨by decide, by decide, by decide, by decide⟩

/-- Witness for c1_amended_idempotence against a store keyed by the original
spelling. -/
theorem c1_amended_idempotence_witness :
    (get_word_status dbKeyedByOriginal (some "jabuke")).isSome = true ∧
    (process false false orcCanonDiffers ["jabuke"] dbKeyedByOriginal).1.all
      (fun ev => !evMentions "jabuke" ev) = true := by
  refine ⟨by decide, ?_⟩
  have h := c1_amended_idempotence orcCanonDiffers ["jabuke"] dbKeyedByOriginal
    "jabuke" (by decide)
  rw [List.all_eq_true]
  intro ev hev
  simp [h ev hev]
